import Mathlib

/-!
# k-rylr896: the protocol engine of the RYLR896 LoRa driver

A shallow embedding of `utils.go` (the engine loop `run`, `parseCommandResponse`,
`classifyOutput`, `parseReceivedMessage`), of `SendMessage` and `SetConfig` of `lora.go`,
of the records of `schema.go` and of the constants of `constants.go` they use.

A Go `string` is its sequence of bytes; a byte is a natural number (its code).  The
theorems quantify over all such sequences, so they hold for every real byte string.
-/

namespace Krylr896

/-! ## Byte strings and the `strings` helpers the source calls -/

/-- A Go string: the list of its bytes. -/
abbrev Str := List Nat

/-- The bytes of an ASCII literal. -/
def str (s : String) : Str := s.toList.map Char.toNat

/-- Go `strings.HasPrefix(s, prefix)`: `len(s) >= len(prefix) && s[:len(prefix)] == prefix`. -/
def hasPrefix (s pre : Str) : Bool :=
  decide (pre.length ≤ s.length) && (s.take pre.length == pre)

/-- Go `strings.HasSuffix(s, suffix)`. -/
def hasSuffix (s suf : Str) : Bool :=
  decide (suf.length ≤ s.length) && (s.drop (s.length - suf.length) == suf)

/-- Go `strings.TrimSuffix(s, suffix)`. -/
def trimSuffix (s suf : Str) : Str :=
  if hasSuffix s suf then s.take (s.length - suf.length) else s

/-- Go `strings.CutPrefix(s, prefix)`; `none` stands for `found = false`. -/
def cutPrefix (s pre : Str) : Option Str :=
  if hasPrefix s pre then some (s.drop pre.length) else none

/-- Go `strings.Index(s, ",")` for a one-byte separator `c`; `none` stands for `-1`. -/
def indexByte (c : Nat) : Str → Option Nat
  | [] => none
  | b :: rest => if b = c then some 0 else (indexByte c rest).map (· + 1)

/-! ## `strconv` -/

/-- The two kinds of `*strconv.NumError`. -/
inductive NumError where
  | syntaxErr
  | rangeErr
  deriving DecidableEq, Repr

/-- The digit loop of `strconv.ParseUint(s, 10, bitSize)`, with `n` the value read so far:
a byte outside `'0'..'9'` is a syntax error; `n >= cutoff` (with `cutoff = maxUint64/10 + 1`)
or `n*10 + d > maxVal` is a range error that returns `maxVal`. -/
def parseUintLoop (maxVal : Nat) : Str → Nat → Nat × Option NumError
  | [], n => (n, none)
  | c :: rest, n =>
    if 48 ≤ c ∧ c ≤ 57 then
      if n ≥ (2 ^ 64 - 1) / 10 + 1 then (maxVal, some .rangeErr)
      else
        let n1 := n * 10 + (c - 48)
        if n1 > maxVal then (maxVal, some .rangeErr)
        else parseUintLoop maxVal rest n1
    else (0, some .syntaxErr)

/-- Go `strconv.ParseUint(s, 10, bitSize)` for `1 <= bitSize <= 64`: value and error. -/
def parseUint (s : Str) (bitSize : Nat) : Nat × Option NumError :=
  if s = [] then (0, some .syntaxErr)
  else parseUintLoop (2 ^ bitSize - 1) s 0

/-- Go `strconv.ParseInt(s, 10, bitSize)` for `1 <= bitSize <= 64`: an optional sign, then
`ParseUint`; a syntax error is passed on, a range error of `ParseUint` falls through to the
two range checks against `cutoff = 1 << (bitSize-1)`. -/
def parseInt (s : Str) (bitSize : Nat) : Int × Option NumError :=
  match s with
  | [] => (0, some .syntaxErr)
  | c :: rest =>
    let neg := decide (c = 45)
    let digits := if c = 43 ∨ c = 45 then rest else s
    let r := parseUint digits bitSize
    if r.2 = some .syntaxErr then (0, some .syntaxErr)
    else
      let un := r.1
      let cutoff := 2 ^ (bitSize - 1)
      if !neg && decide (un ≥ cutoff) then ((cutoff : Int) - 1, some .rangeErr)
      else if neg && decide (un > cutoff) then (-(cutoff : Int), some .rangeErr)
      else (if neg then -(un : Int) else (un : Int), none)

/-- Go `strconv.Atoi(s)`: `ParseInt(s, 10, 0)` converted to `int` (64-bit `int`). -/
def atoi (s : Str) : Int × Option NumError := parseInt s 64

/-- Decimal text of a natural number, as `fmt.Sprintf("%d", n)` prints it; `fuel` bounds
the number of digits. -/
def decFuel : Nat → Nat → Str
  | 0, n => [48 + n % 10]
  | fuel + 1, n => if n < 10 then [48 + n] else decFuel fuel (n / 10) ++ [48 + n % 10]

/-- Decimal text of a natural number. -/
def dec (n : Nat) : Str := decFuel n n

/-- Decimal text of an integer, with a leading `-` when negative. -/
def decInt (i : Int) : Str := if i < 0 then 45 :: dec i.natAbs else dec i.toNat

/-! ## The records of `schema.go` -/

/-- Go `RecievedData`; `Data` is the `[240]byte` array. -/
structure RecievedData where
  Address : Nat
  Length : Nat
  Data : List Nat
  ReceivedSignalStrengthIndicator : Int
  SignalToNoiseRatio : Int
  deriving DecidableEq, Repr

/-- The zero value `var msg RecievedData`. -/
def RecievedData.zero : RecievedData :=
  { Address := 0, Length := 0, Data := List.replicate 240 0,
    ReceivedSignalStrengthIndicator := 0, SignalToNoiseRatio := 0 }

/-- Go `copy(dst[:], src)` into an array: the first `min(len(dst), len(src))` bytes of
`dst` are overwritten, the rest is kept. -/
def copyInto (dst src : List Nat) : List Nat :=
  src.take dst.length ++ dst.drop src.length

/-- The conversion `int8(x)` of an `int64`. -/
def toInt8 (x : Int) : Int := (x + 128) % 256 - 128

/-- Go `a[:n]` on an array or slice: `none` is the run-time panic for `n > len(a)`. -/
def sliceTo (a : List Nat) (n : Nat) : Option (List Nat) :=
  if n ≤ a.length then some (a.take n) else none

/-! ## `parseReceivedMessage` -/

/-- Go `parseReceivedMessage(payload, Lora)`: the record built so far and `ok`. -/
def parseReceivedMessage (payload : Str) : RecievedData × Bool :=
  let msg := RecievedData.zero
  match indexByte 44 payload with
  | none => (msg, false)
  | some idx1 =>
    let (addr, err) := parseUint (payload.take idx1) 16
    if err ≠ none then (msg, false)
    else
      let msg := { msg with Address := addr % 2 ^ 16 }
      let remaining := payload.drop (idx1 + 1)
      match indexByte 44 remaining with
      | none => (msg, false)
      | some idx2 =>
        let (length, err) := parseUint (remaining.take idx2) 8
        if err ≠ none then (msg, false)
        else
          let msg := { msg with Length := length % 2 ^ 8 }
          let dataStart := idx1 + 1 + idx2 + 1
          if dataStart + length > payload.length then (msg, false)
          else
            let dataEnd := dataStart + length
            let msg := { msg with
              Data := copyInto msg.Data ((payload.take dataEnd).drop dataStart) }
            let afterData := payload.drop dataEnd
            if !hasPrefix afterData [44] then (msg, false)
            else
              let afterData := afterData.drop 1
              match indexByte 44 afterData with
              | none => (msg, false)
              | some idx3 =>
                let (rssi, err) := parseInt (afterData.take idx3) 8
                if err ≠ none then (msg, false)
                else
                  let msg := { msg with ReceivedSignalStrengthIndicator := toInt8 rssi }
                  let (snr, err) := parseInt (afterData.drop (idx3 + 1)) 8
                  if err ≠ none then (msg, false)
                  else
                    let msg := { msg with SignalToNoiseRatio := toInt8 snr }
                    (msg, true)

/-- Go `s[lo:]`: `none` is the run-time panic for `lo > len(s)`. -/
def sliceFrom (s : Str) (lo : Nat) : Option Str :=
  if lo ≤ s.length then some (s.drop lo) else none

/-- Go `s[lo:hi]`: `none` is the run-time panic for `lo > hi` or `hi > len(s)`. -/
def slice (s : Str) (lo hi : Nat) : Option Str :=
  if lo ≤ hi ∧ hi ≤ s.length then some ((s.take hi).drop lo) else none

/-- Go `parseReceivedMessage(payload, Lora)` with every slice expression checked against
its bounds: `none` is a run-time panic, `some` the returned pair. -/
def parseReceivedMessageChecked (payload : Str) : Option (RecievedData × Bool) :=
  let msg := RecievedData.zero
  match indexByte 44 payload with
  | none => some (msg, false)
  | some idx1 =>
    (sliceTo payload idx1).bind fun addrStr =>
    let (addr, err) := parseUint addrStr 16
    if err ≠ none then some (msg, false)
    else
      let msg := { msg with Address := addr % 2 ^ 16 }
      (sliceFrom payload (idx1 + 1)).bind fun remaining =>
      match indexByte 44 remaining with
      | none => some (msg, false)
      | some idx2 =>
        (sliceTo remaining idx2).bind fun lengthStr =>
        let (length, err) := parseUint lengthStr 8
        if err ≠ none then some (msg, false)
        else
          let msg := { msg with Length := length % 2 ^ 8 }
          let dataStart := idx1 + 1 + idx2 + 1
          if dataStart + length > payload.length then some (msg, false)
          else
            let dataEnd := dataStart + length
            (slice payload dataStart dataEnd).bind fun data =>
            let msg := { msg with Data := copyInto msg.Data data }
            (sliceFrom payload dataEnd).bind fun afterData =>
            if !hasPrefix afterData [44] then some (msg, false)
            else
              (sliceFrom afterData 1).bind fun afterData =>
              match indexByte 44 afterData with
              | none => some (msg, false)
              | some idx3 =>
                (sliceTo afterData idx3).bind fun rssiStr =>
                let (rssi, err) := parseInt rssiStr 8
                if err ≠ none then some (msg, false)
                else
                  let msg := { msg with ReceivedSignalStrengthIndicator := toInt8 rssi }
                  (sliceFrom afterData (idx3 + 1)).bind fun snrStr =>
                  let (snr, err) := parseInt snrStr 8
                  if err ≠ none then some (msg, false)
                  else
                    let msg := { msg with SignalToNoiseRatio := toInt8 snr }
                    some (msg, true)

/-- The wire text of a received-message frame after `+RCV=`, in the format
`<Address>,<Length>,<Data>,<RSSI>,<SNR>` of the comment on `parseReceivedMessage`:
the encoder the round trip is taken against. -/
def encodeFrame (address : Nat) (payload : Str) (rssi snr : Int) : Str :=
  dec address ++ str "," ++ dec payload.length ++ str "," ++ payload ++ str "," ++
    decInt rssi ++ str "," ++ decInt snr

/-! ## Errors, commands and responses (`schema.go`, `constants.go`) -/

/-- A Go `error` value, as far as the engine makes or forwards one. -/
inductive GoError where
  /-- The value of `fmt.Errorf("command timeout after 10 seconds")`. -/
  | timeout
  /-- The value of `fmt.Errorf("unknown unsolicited data: %s", line)`. -/
  | unknownData (line : Str)
  /-- An error returned by the serial port (`Write` or `ReadString`), by an identifier. -/
  | port (id : Nat)
  /-- The value of `fmt.Errorf(text)`, an error that wraps no other. -/
  | message (text : Str)
  /-- The value of `fmt.Errorf(text + ": %w", cause)` for a non-nil `cause`. -/
  | wrapped (text : Str) (cause : GoError)
  deriving DecidableEq, Repr

/-- Go `ErrorEvent`; `none` is `nil`. -/
structure ErrorEvent where
  Code : Option Int
  Err : Option GoError
  deriving DecidableEq, Repr

/-- Go `CommandResponse`. -/
structure CommandResponse where
  Response : Str
  Error : Option ErrorEvent
  deriving DecidableEq, Repr

/-- Go `Command`; a reply channel is named by a number, `none` is the `nil` channel. -/
structure Command where
  Text : Str
  ResponseChan : Option Nat
  deriving DecidableEq, Repr

/-- The result code `UNK_ERR` of `constants.go`. -/
def UNK_ERR : Int := 15

/-! ## `parseCommandResponse` and `classifyOutput` -/

/-- Go `parseCommandResponse(line, Lora)`. -/
def parseCommandResponse (line : Str) : CommandResponse :=
  let line := trimSuffix (trimSuffix line (str "\n")) (str "\r")
  if hasPrefix line (str "+OK") then { Response := line, Error := none }
  else
    match cutPrefix line (str "+ERR=") with
    | some errCodeStr =>
      let (errCode, err) := atoi errCodeStr
      if err = none then
        { Response := line, Error := some { Code := some errCode, Err := none } }
      else { Response := line, Error := none }
    | none => { Response := line, Error := none }

/-- The part of Go `lora` the engine acts on.  `Errors` and `RecievedData` are the contents
of the two buffered channels (oldest first), each made with capacity `buffLen`;
`portWrites` lists the arguments of the calls of `Lora.port.Write`; `replies` lists the
sends `ch <- response` on reply channels, as (channel, response). -/
structure Lora where
  Errors : List ErrorEvent
  RecievedData : List RecievedData
  buffLen : Nat
  portWrites : List Str
  replies : List (Nat × CommandResponse)
  deriving DecidableEq, Repr

/-- The non-blocking send `select { case ch <- x: default: }` on a buffered channel with
contents `q` and capacity `cap` (no receiver waiting): `x` is dropped when the buffer is
full. -/
def offer {α : Type} (q : List α) (cap : Nat) (x : α) : List α :=
  if q.length < cap then q ++ [x] else q

/-- Go `classifyOutput(line, Lora)`. -/
def classifyOutput (line : Str) (L : Lora) : Lora :=
  let line := trimSuffix (trimSuffix line (str "\n")) (str "\r")
  match cutPrefix line (str "+RCV=") with
  | some payload =>
    let (msg, ok) := parseReceivedMessage payload
    if ok then { L with RecievedData := offer L.RecievedData L.buffLen msg }
    else L
  | none =>
    match cutPrefix line (str "+ERR=") with
    | some errCodeStr =>
      let (errCode, err) := atoi errCodeStr
      if err = none then
        { L with Errors := offer L.Errors L.buffLen { Code := some errCode, Err := none } }
      else L
    | none =>
      let ev : ErrorEvent := { Code := none, Err := some (GoError.unknownData line) }
      { L with Errors := offer L.Errors L.buffLen ev }

/-! ## The engine loop `run` as a step function

One iteration of `for { select { ... } }` is one step.  The state holds the three locals
of `run` and what the loop has done to the outside; an event is the `select` case taken.
The sleep of 4 ms and the debug log change none of this and are left out.  A send on a
reply channel is taken to complete (the callers in `lora.go` give every command a
channel of capacity one and read it once). -/

/-- The state of `run`. `commandTimeout` tells whether the timer channel is non-nil;
`terminated` tells that `run` has returned. -/
structure Engine where
  commandInProgress : Bool
  currentResponseChan : Option Nat
  commandTimeout : Bool
  terminated : Bool
  lora : Lora
  deriving DecidableEq, Repr

/-- The state at the top of `run`, with empty sinks of capacity `buffLen`. -/
def Engine.init (buffLen : Nat) : Engine :=
  { commandInProgress := false, currentResponseChan := none, commandTimeout := false,
    terminated := false,
    lora := { Errors := [], RecievedData := [], buffLen := buffLen, portWrites := [],
              replies := [] } }

/-- The cases of the `select`. `Submit cmd writeErr` is `cmd, ok := <-Lora.Commands` with
`ok = true`, and `writeErr` is the error `Lora.port.Write` returns when it is called;
`Closed` is the same case with `ok = false`; `Line` is `<-portLines`; `Timeout` is
`<-commandTimeout`; `PortError` is `<-portErrors`. -/
inductive Event where
  | Submit (cmd : Command) (writeErr : Option GoError)
  | Closed
  | Line (line : Str)
  | Timeout
  | PortError (err : GoError)
  deriving DecidableEq, Repr

/-- The send `ch <- r` on a reply channel, skipped for the `nil` channel. -/
def sendReply (L : Lora) (ch : Option Nat) (r : CommandResponse) : Lora :=
  match ch with
  | some c => { L with replies := L.replies ++ [(c, r)] }
  | none => L

/-- One iteration of the loop of `run`.  `none`: the event cannot be taken (the loop has
returned, or the timer channel is `nil`, on which a receive blocks for ever). -/
def step (e : Engine) (ev : Event) : Option Engine :=
  if e.terminated then none
  else
    match ev with
    | .Closed => some { e with terminated := true }
    | .Submit cmd writeErr =>
      if cmd.Text = [] then some { e with terminated := true }
      else
        let cmdString := cmd.Text ++ str "\r\n"
        let L := { e.lora with portWrites := e.lora.portWrites ++ [cmdString] }
        match writeErr with
        | some err =>
          let code := UNK_ERR
          let r : CommandResponse :=
            { Response := [], Error := some { Code := some code, Err := some err } }
          some { e with lora := sendReply L cmd.ResponseChan r }
        | none =>
          some { e with commandInProgress := true, currentResponseChan := cmd.ResponseChan,
                        commandTimeout := true, lora := L }
    | .Line line =>
      if e.commandInProgress then
        let response := parseCommandResponse line
        some { e with commandInProgress := false, currentResponseChan := none,
                      commandTimeout := false,
                      lora := sendReply e.lora e.currentResponseChan response }
      else some { e with lora := classifyOutput line e.lora }
    | .Timeout =>
      if e.commandTimeout then
        let r : CommandResponse :=
          { Response := [], Error := some { Code := none, Err := some GoError.timeout } }
        let L := if e.commandInProgress then sendReply e.lora e.currentResponseChan r else e.lora
        some { e with commandInProgress := false, currentResponseChan := none,
                      commandTimeout := false, lora := L }
      else none
    | .PortError err =>
      let ev : ErrorEvent := { Code := none, Err := some err }
      let L := { e.lora with Errors := offer e.lora.Errors e.lora.buffLen ev }
      some { e with terminated := true, lora := L }

/-- The loop of `run` on a sequence of events; `none` when one of them cannot be taken. -/
def runEvents : Engine → List Event → Option Engine
  | e, [] => some e
  | e, ev :: rest =>
    match step e ev with
    | some e1 => runEvents e1 rest
    | none => none

/-- The number of responses sent so far on reply channel `c`. -/
def repliesOn (L : Lora) (c : Nat) : Nat := L.replies.countP (fun p => p.1 == c)

/-- The number of commands in `evs` (taken from `Lora.Commands`) whose reply channel
is `c`. -/
def submittedOn (evs : List Event) (c : Nat) : Nat :=
  evs.countP (fun ev =>
    match ev with
    | .Submit cmd _ => cmd.ResponseChan == some c
    | _ => false)

/-- One when the command in flight waits on reply channel `c`, zero otherwise. -/
def inFlightOn (e : Engine) (c : Nat) : Nat :=
  if e.commandInProgress = true ∧ e.currentResponseChan = some c then 1 else 0

/-- Every command of `evs` has a non-empty text and is taken from the queue while no
command is in flight, when the loop runs `evs` from state `e`. -/
def orderly : Engine → List Event → Bool
  | _, [] => true
  | e, ev :: rest =>
    (match ev with
      | .Submit cmd _ => !e.commandInProgress && decide (cmd.Text ≠ [])
      | _ => true) &&
    (match step e ev with
      | some e1 => orderly e1 rest
      | none => true)

/-- The line without its terminator, as both `parseCommandResponse` and `classifyOutput`
compute it first: `strings.TrimSuffix(strings.TrimSuffix(line, "\n"), "\r")`. -/
def trimLine (line : Str) : Str := trimSuffix (trimSuffix line (str "\n")) (str "\r")

/-! ## `lora.go`: `SendMessage` and `SetConfig`

Both functions send commands on `Lora.Commands` and wait on a reply channel of their own.
They are modelled as functions of `outcome`, which gives for a command text the response
the engine delivers for it; the send on the queue and the receive on the reply channel
are taken to complete.  The result is the list of commands sent, in order, and the
returned `*ErrorEvent`. -/

/-- Go `Parameters`. -/
structure Parameters where
  SpreadingFactor : Nat
  Bandwidth : Nat
  CodingRate : Nat
  ProgrammedPreamble : Nat
  deriving DecidableEq, Repr

/-- Go `Configuration`; `none` is a nil field. -/
structure Configuration where
  Address : Option Nat
  NetworkID : Option Nat
  Band : Option Nat
  Parameter : Option Parameters
  Mode : Option Nat
  UartBaudRate : Option Int
  EncryptionKey : Option (List Nat)
  RFOutputPower : Option Nat
  deriving DecidableEq, Repr

/-- One digit of the table `0123456789abcdef` of `encoding/hex`. -/
def hexDigit (n : Nat) : Nat := if n < 10 then 48 + n else 87 + n

/-- Go `hex.EncodeToString`: two digits per byte, high half first. -/
def hexEncode : List Nat → Str
  | [] => []
  | b :: rest => hexDigit (b / 16) :: hexDigit (b % 16) :: hexEncode rest

/-- The value of `fmt.Errorf(text + ": %w", err)` for an `err` that may be nil. -/
def errorfW (text : Str) (err : Option GoError) : GoError :=
  match err with
  | some g => GoError.wrapped text g
  | none => GoError.message (text ++ str ": %!w(<nil>)")

/-- Go `(*lora).SendMessage(address, data)`, with `resultChan` the reply channel it
makes. -/
def SendMessage (address : Nat) (data : Str) (resultChan : Nat)
    (outcome : Str → CommandResponse) : List Command × Option ErrorEvent :=
  if data.length > 240 then
    let msg := str "data length " ++ dec data.length ++ str " exceeds maximum of 240 bytes"
    ([], some { Code := none, Err := some (GoError.message msg) })
  else
    let cmd := str "AT+SEND=" ++ dec address ++ str "," ++ dec data.length ++ str "," ++ data
    let resp := outcome cmd
    match resp.Error with
    | some ev =>
      ([⟨cmd, some resultChan⟩],
        some { Code := ev.Code, Err := some (errorfW (str "send failed") ev.Err) })
    | none => ([⟨cmd, some resultChan⟩], none)

/-- The closure `sendCommand` of `SetConfig`: the command is sent on `Lora.Commands` with
`resultChan` (added to `sent`), and the `Error` of the response is returned. -/
def sendCommand (resultChan : Nat) (outcome : Str → CommandResponse) (sent : List Command)
    (cmd : Str) : List Command × Option ErrorEvent :=
  (sent ++ [⟨cmd, some resultChan⟩], (outcome cmd).Error)

/-- One block `if config.X != nil { if err := sendCommand(cmd); err != nil { return ... } }`
of `SetConfig`.  `acc` holds the commands sent so far and the `*ErrorEvent` already
returned (`none` while the function is still running); `cmd` is `none` for a nil field;
`what` is the text of the error (`failed to set address`, ...). -/
def setField (resultChan : Nat) (outcome : Str → CommandResponse)
    (acc : List Command × Option ErrorEvent) (cmd : Option Str) (what : Str) :
    List Command × Option ErrorEvent :=
  match acc.2 with
  | some _ => acc
  | none =>
    match cmd with
    | none => acc
    | some c =>
      let r := sendCommand resultChan outcome acc.1 c
      match r.2 with
      | some err =>
        match err.Err with
        | some g => (r.1, some { Code := err.Code, Err := some (GoError.wrapped what g) })
        | none => (r.1, some { Code := err.Code, Err := some (GoError.message what) })
      | none => (r.1, none)

/-- The text of the `AT+PARAMETER` command. -/
def parameterCommand (p : Parameters) : Str :=
  str "AT+PARAMETER=" ++ dec p.SpreadingFactor ++ str "," ++ dec p.Bandwidth ++ str "," ++
    dec p.CodingRate ++ str "," ++ dec p.ProgrammedPreamble

/-- Go `(*lora).SetConfig(config)`, with `resultChan` the reply channel it makes: the
eight blocks in the order of the source; the final `return nil` is the `none` left when
no block has returned. -/
def SetConfig (config : Configuration) (resultChan : Nat) (outcome : Str → CommandResponse) :
    List Command × Option ErrorEvent :=
  let r : List Command × Option ErrorEvent := ([], none)
  let r := setField resultChan outcome r
    (config.Address.map (fun a => str "AT+ADDRESS=" ++ dec a)) (str "failed to set address")
  let r := setField resultChan outcome r
    (config.NetworkID.map (fun a => str "AT+NETWORKID=" ++ dec a)) (str "failed to set network ID")
  let r := setField resultChan outcome r
    (config.Band.map (fun a => str "AT+BAND=" ++ dec a)) (str "failed to set band")
  let r := setField resultChan outcome r
    (config.Parameter.map parameterCommand) (str "failed to set parameter")
  let r := setField resultChan outcome r
    (config.Mode.map (fun a => str "AT+MODE=" ++ dec a)) (str "failed to set mode")
  let r := setField resultChan outcome r
    (config.UartBaudRate.map (fun a => str "AT+IPR=" ++ decInt a))
    (str "failed to set UART baud rate")
  let r := setField resultChan outcome r
    (config.EncryptionKey.map (fun k => str "AT+CPIN=" ++ hexEncode k))
    (str "failed to set encryption key")
  let r := setField resultChan outcome r
    (config.RFOutputPower.map (fun a => str "AT+CRFOP=" ++ dec a))
    (str "failed to set RF output power")
  r

/-- The commands of the non-nil fields of a configuration, in the order ADDRESS,
NETWORKID, BAND, PARAMETER, MODE, IPR, CPIN, CRFOP. -/
def configCommands (config : Configuration) : List Str :=
  (config.Address.map (fun a => str "AT+ADDRESS=" ++ dec a)).toList ++
  (config.NetworkID.map (fun a => str "AT+NETWORKID=" ++ dec a)).toList ++
  (config.Band.map (fun a => str "AT+BAND=" ++ dec a)).toList ++
  (config.Parameter.map parameterCommand).toList ++
  (config.Mode.map (fun a => str "AT+MODE=" ++ dec a)).toList ++
  (config.UartBaudRate.map (fun a => str "AT+IPR=" ++ decInt a)).toList ++
  (config.EncryptionKey.map (fun k => str "AT+CPIN=" ++ hexEncode k)).toList ++
  (config.RFOutputPower.map (fun a => str "AT+CRFOP=" ++ dec a)).toList

/-- A list of commands cut after the first one whose outcome has a non-nil `Error`. -/
def throughFirstFailure (outcome : Str → CommandResponse) : List Str → List Str
  | [] => []
  | c :: rest =>
    if (outcome c).Error = none then c :: throughFirstFailure outcome rest else [c]

/-- The state of `SetConfig` after the blocks of the commands `cmds`: the commands sent
are `cmds` cut after the first failure, and no block has returned exactly when none of
`cmds` failed. -/
def SetConfigInv (resultChan : Nat) (outcome : Str → CommandResponse)
    (acc : List Command × Option ErrorEvent) (cmds : List Str) : Prop :=
  acc.1 = (throughFirstFailure outcome cmds).map (fun t => (⟨t, some resultChan⟩ : Command)) ∧
  (acc.2 = none ↔ ∀ c ∈ cmds, (outcome c).Error = none)

/-- Which of `Error.Code` and `Error.Err` of a response are non-nil; `none` when `Error`
itself is nil. -/
def failureShape (r : CommandResponse) : Option (Bool × Bool) :=
  r.Error.map (fun ev => (ev.Code.isSome, ev.Err.isSome))

/-! ## The line reader of `run` -/

/-- The lines that the reader goroutine of `run` puts on `portLines` for the input `s`,
with `cur` the bytes read since the last line-feed: `reader.ReadString('\n')` returns the
bytes up to and including the next line-feed; at the end of the input it returns an error,
and the bytes read so far are not delivered. -/
def readLinesAux (cur : Str) : Str → List Str
  | [] => []
  | b :: rest =>
    if b = 10 then (cur ++ [10]) :: readLinesAux [] rest else readLinesAux (cur ++ [b]) rest

/-- The lines delivered for a stream read from its start. -/
def readLines (s : Str) : List Str := readLinesAux [] s

/-- The idle engine on a sequence of lines: each is passed to `classifyOutput`, in order. -/
def classifyLines (lines : List Str) (L : Lora) : Lora :=
  lines.foldl (fun L1 line => classifyOutput line L1) L

/-! ## Lemmas on the helpers -/

theorem str_comma : str "," = [44] := rfl

theorem indexByte_append_of_not_mem (c : Nat) (a rest : Str) (h : c ∉ a) :
    indexByte c (a ++ c :: rest) = some a.length := by
  induction a with
  | nil => simp [indexByte]
  | cons b t ih =>
    have hb : b ≠ c := fun e => h (by simp [e])
    have ht : c ∉ t := fun e => h (by simp [e])
    simp [indexByte, hb, ih ht]

theorem indexByte_eq_none (c : Nat) (s : Str) (h : c ∉ s) : indexByte c s = none := by
  induction s with
  | nil => rfl
  | cons b t ih =>
    have hb : b ≠ c := fun e => h (by simp [e])
    have ht : c ∉ t := fun e => h (by simp [e])
    simp [indexByte, hb, ih ht]

theorem indexByte_some (c : Nat) (s : Str) (i : Nat) (h : indexByte c s = some i) :
    c ∉ s.take i ∧ s = s.take i ++ c :: s.drop (i + 1) := by
  induction s generalizing i with
  | nil => simp [indexByte] at h
  | cons b t ih =>
    by_cases hb : b = c
    · simp [indexByte, hb] at h
      subst h
      simp [hb]
    · simp only [indexByte, hb, if_false, Option.map_eq_some'] at h
      obtain ⟨j, hj, rfl⟩ := h
      obtain ⟨h1, h2⟩ := ih j hj
      refine ⟨?_, ?_⟩
      · simp only [List.take_succ_cons, List.mem_cons, not_or]
        exact ⟨fun e => hb e.symm, h1⟩
      · simp only [List.take_succ_cons, List.drop_succ_cons, List.cons_append, List.cons.injEq,
          true_and]
        exact h2

theorem parseUintLoop_append (maxVal : Nat) (xs ys : Str) (n : Nat) :
    parseUintLoop maxVal (xs ++ ys) n =
      if (parseUintLoop maxVal xs n).2 = none then
        parseUintLoop maxVal ys (parseUintLoop maxVal xs n).1
      else parseUintLoop maxVal xs n := by
  induction xs generalizing n with
  | nil => simp [parseUintLoop]
  | cons c t ih =>
    simp only [List.cons_append, parseUintLoop]
    split_ifs <;> simp_all

theorem decFuel_digits (fuel n : Nat) : ∀ c ∈ decFuel fuel n, 48 ≤ c ∧ c ≤ 57 := by
  induction fuel generalizing n with
  | zero =>
    intro c hc
    simp only [decFuel, List.mem_singleton] at hc
    omega
  | succ f ih =>
    intro c hc
    simp only [decFuel] at hc
    split_ifs at hc with h
    · simp only [List.mem_singleton] at hc
      omega
    · simp only [List.mem_append, List.mem_singleton] at hc
      rcases hc with hc | hc
      · exact ih _ c hc
      · omega

theorem decFuel_ne_nil (fuel n : Nat) : decFuel fuel n ≠ [] := by
  cases fuel with
  | zero => simp [decFuel]
  | succ f =>
    simp only [decFuel]
    split_ifs <;> simp

theorem parseUintLoop_decFuel (maxVal fuel n : Nat) (hf : n ≤ fuel) (hm : n ≤ maxVal)
    (h64 : maxVal < 2 ^ 64) : parseUintLoop maxVal (decFuel fuel n) 0 = (n, none) := by
  induction fuel generalizing n with
  | zero =>
    have h0 : n = 0 := by omega
    subst h0
    simp [decFuel, parseUintLoop]
  | succ f ih =>
    simp only [decFuel]
    split_ifs with h
    · have h1 : 48 + n - 48 = n := by omega
      have h2 : ¬ maxVal < n := by omega
      simp [parseUintLoop, h1, h2]
      omega
    · have hq : n / 10 ≤ f := by omega
      have hq2 : n / 10 ≤ maxVal := by omega
      rw [parseUintLoop_append, ih (n / 10) hq hq2]
      have h1 : 48 + n % 10 - 48 = n % 10 := by omega
      have h2 : n / 10 * 10 + n % 10 = n := by omega
      have h3 : ¬ maxVal < n := by omega
      have h4 : ¬ (2 ^ 64 - 1) / 10 + 1 ≤ n / 10 := by omega
      have h5 : 48 + n % 10 ≤ 57 := by omega
      simp [parseUintLoop, h1, h2, h3, h5]
      omega

theorem parseUint_dec (bitSize n : Nat) (hb : bitSize ≤ 64) (hn : n < 2 ^ bitSize) :
    parseUint (dec n) bitSize = (n, none) := by
  have hp : 2 ^ bitSize ≤ 2 ^ 64 := Nat.pow_le_pow_right (by decide) hb
  have hpos : 0 < 2 ^ bitSize := Nat.two_pow_pos bitSize
  unfold parseUint dec
  rw [if_neg (decFuel_ne_nil n n)]
  exact parseUintLoop_decFuel _ n n (le_refl n) (by omega) (by omega)

theorem dec_no_comma (n : Nat) : 44 ∉ dec n := by
  intro h
  have := decFuel_digits n n 44 h
  omega

theorem dec_ne_nil (n : Nat) : dec n ≠ [] := decFuel_ne_nil n n

theorem dec_head (n : Nat) : ∃ c t, dec n = c :: t ∧ 48 ≤ c ∧ c ≤ 57 := by
  rcases hd : dec n with _ | ⟨c, t⟩
  · exact absurd hd (dec_ne_nil n)
  · exact ⟨c, t, rfl, decFuel_digits n n c (by rw [show decFuel n n = dec n from rfl, hd]; simp)⟩

theorem decInt_no_comma (i : Int) : 44 ∉ decInt i := by
  unfold decInt
  split_ifs
  · simp only [List.mem_cons, not_or]
    exact ⟨by decide, dec_no_comma _⟩
  · exact dec_no_comma _

theorem parseInt_decInt (i : Int) (h1 : -128 ≤ i) (h2 : i ≤ 127) :
    parseInt (decInt i) 8 = (i, none) := by
  unfold decInt
  split_ifs with hneg
  · have hu := parseUint_dec 8 i.natAbs (by decide) (by omega)
    have h3 : ¬ 128 < i.natAbs := by omega
    simp [parseInt, hu, h3]
    rw [abs_of_neg hneg]; omega
  · obtain ⟨c, t, hd, hc1, hc2⟩ := dec_head i.toNat
    have hu := parseUint_dec 8 i.toNat (by decide) (by omega)
    rw [hd] at hu
    rw [hd]
    have hc43 : c ≠ 43 := by omega
    have hc45 : c ≠ 45 := by omega
    have h3 : ¬ 128 ≤ i.toNat := by omega
    have h4 : (i.toNat : Int) = i := by omega
    simp [parseInt, hc43, hu, hc45, h3, h4]

/-- The decoder on a text cut at its first two commas: `a` and `l` are the address and
length fields, `rest` is what follows the second comma. -/
theorem parseReceivedMessage_fields (a l rest : Str) (ha : 44 ∉ a) (hl : 44 ∉ l) :
    parseReceivedMessage (a ++ 44 :: (l ++ 44 :: rest)) =
      if (parseUint a 16).2 ≠ none then (RecievedData.zero, false)
      else
        let msg1 := { RecievedData.zero with Address := (parseUint a 16).1 % 2 ^ 16 }
        if (parseUint l 8).2 ≠ none then (msg1, false)
        else
          let length := (parseUint l 8).1
          let msg2 := { msg1 with Length := length % 2 ^ 8 }
          if length > rest.length then (msg2, false)
          else
            let msg3 := { msg2 with Data := copyInto msg2.Data (rest.take length) }
            let afterData := rest.drop length
            if !hasPrefix afterData [44] then (msg3, false)
            else
              match indexByte 44 (afterData.drop 1) with
              | none => (msg3, false)
              | some idx3 =>
                if (parseInt ((afterData.drop 1).take idx3) 8).2 ≠ none then (msg3, false)
                else
                  let rssi := (parseInt ((afterData.drop 1).take idx3) 8).1
                  let msg4 := { msg3 with ReceivedSignalStrengthIndicator := toInt8 rssi }
                  if (parseInt ((afterData.drop 1).drop (idx3 + 1)) 8).2 ≠ none then
                    (msg4, false)
                  else
                    let snr := (parseInt ((afterData.drop 1).drop (idx3 + 1)) 8).1
                    ({ msg4 with SignalToNoiseRatio := toInt8 snr }, true) := by
  have e1 : (a ++ 44 :: (l ++ 44 :: rest)).drop (a.length + 1) = l ++ 44 :: rest := by
    rw [show a ++ 44 :: (l ++ 44 :: rest) = (a ++ [44]) ++ (l ++ 44 :: rest) by simp]
    exact List.drop_left' (by simp)
  have e2 : (a ++ 44 :: (l ++ 44 :: rest)).drop (a.length + 1 + l.length + 1) = rest := by
    rw [show a ++ 44 :: (l ++ 44 :: rest) = (a ++ [44] ++ l ++ [44]) ++ rest by simp]
    exact List.drop_left' (by simp; omega)
  have e3 : ∀ k, (a ++ 44 :: (l ++ 44 :: rest)).drop (a.length + 1 + l.length + 1 + k)
      = rest.drop k := by
    intro k
    rw [← List.drop_drop, e2]
  have e4 : ∀ k, ((a ++ 44 :: (l ++ 44 :: rest)).take (a.length + 1 + l.length + 1 + k)).drop
      (a.length + 1 + l.length + 1) = rest.take k := by
    intro k
    rw [List.drop_take, e2]
    congr 1
    omega
  have e5 : (a ++ 44 :: (l ++ 44 :: rest)).length = a.length + 1 + l.length + 1 + rest.length := by
    simp
    omega
  unfold parseReceivedMessage
  simp only [indexByte_append_of_not_mem 44 a _ ha, e1, indexByte_append_of_not_mem 44 l _ hl,
    List.take_left, e3, e4, e5]
  by_cases h1 : (parseUint a 16).2 = none
  · by_cases h2 : (parseUint l 8).2 = none
    · by_cases h3 : (parseUint l 8).1 > rest.length
      · simp [h1, h2, h3]
      · have h3' : ¬ a.length + 1 + l.length + 1 + (parseUint l 8).1 >
            a.length + 1 + l.length + 1 + rest.length := by omega
        simp only [h1, h2, h3, h3', ne_eq, not_true_eq_false, if_false]
    · simp [h1, h2]
  · simp [h1]

theorem copyInto_take (d : Str) (h : d.length ≤ 240) :
    (copyInto (List.replicate 240 0) d).take d.length = d := by
  unfold copyInto
  have h1 : d.take (List.replicate 240 0).length = d := List.take_of_length_le (by rw [List.length_replicate]; exact h)
  rw [h1, List.take_left]

theorem copyInto_length (dst src : Str) : (copyInto dst src).length = dst.length := by
  unfold copyInto
  simp
  omega

theorem toInt8_id (x : Int) (h1 : -128 ≤ x) (h2 : x ≤ 127) : toInt8 x = x := by
  unfold toInt8
  omega

/-- The decoder on a well-formed frame text. -/
theorem parseReceivedMessage_encodeFrame (address : Nat) (payload : Str) (rssi snr : Int)
    (ha : address ≤ 65535) (hn : payload.length ≤ 240)
    (hr1 : -128 ≤ rssi) (hr2 : rssi ≤ 127) (hs1 : -128 ≤ snr) (hs2 : snr ≤ 127) :
    parseReceivedMessage (encodeFrame address payload rssi snr) =
      ({ Address := address, Length := payload.length,
         Data := copyInto (List.replicate 240 0) payload,
         ReceivedSignalStrengthIndicator := rssi, SignalToNoiseRatio := snr }, true) := by
  have hA := parseUint_dec 16 address (by decide) (by norm_num; omega)
  have hL := parseUint_dec 8 payload.length (by decide) (by norm_num; omega)
  have hR := parseInt_decInt rssi hr1 hr2
  have hS := parseInt_decInt snr hs1 hs2
  have hA' : address % 65536 = address := by omega
  have hL' : payload.length % 256 = payload.length := by omega
  unfold encodeFrame
  simp only [str_comma, List.append_assoc, List.cons_append, List.nil_append]
  rw [parseReceivedMessage_fields _ _ _ (dec_no_comma _) (dec_no_comma _)]
  simp only [hA, hL, List.length_append, List.take_left, List.drop_left, hasPrefix,
    List.drop_succ_cons, List.drop_zero, indexByte_append_of_not_mem 44 _ _ (decInt_no_comma rssi),
    hR, hS, toInt8_id rssi hr1 hr2, toInt8_id snr hs1 hs2, RecievedData.zero]
  simp [hA', hL', hS, toInt8_id snr hs1 hs2]

theorem trimSuffix_single (s : Str) (c : Nat) :
    trimSuffix s [c] = if s.getLast? = some c then s.dropLast else s := by
  rcases List.eq_nil_or_concat s with rfl | ⟨t, l, rfl⟩
  · simp [trimSuffix, hasSuffix]
  · by_cases h : l = c
    · simp [trimSuffix, hasSuffix, h]
    · simp [trimSuffix, hasSuffix, h]

theorem trimSuffix_append_cons (a rest : Str) (x c : Nat) (hx : x ≠ c) :
    trimSuffix (a ++ x :: rest) [c] = a ++ x :: trimSuffix rest [c] := by
  rw [trimSuffix_single, trimSuffix_single]
  rcases List.eq_nil_or_concat rest with rfl | ⟨t, l, rfl⟩
  · simp [hx]
  · have e : a ++ x :: (t ++ [l]) = (a ++ x :: t) ++ [l] := by simp
    simp only [List.concat_eq_append]
    rw [e, List.getLast?_concat, List.getLast?_concat, List.dropLast_concat,
      List.dropLast_concat]
    split_ifs <;> simp

theorem trimSuffix_length_le (s : Str) (c : Nat) : (trimSuffix s [c]).length ≤ s.length := by
  rw [trimSuffix_single]
  split_ifs <;> simp

theorem trimLine_append_cons (a rest : Str) (x : Nat) (h10 : x ≠ 10) (h13 : x ≠ 13) :
    trimLine (a ++ x :: rest) = a ++ x :: trimLine rest := by
  unfold trimLine
  rw [show str "\n" = [10] from rfl, show str "\r" = [13] from rfl,
    trimSuffix_append_cons a rest x 10 h10, trimSuffix_append_cons a _ x 13 h13]

theorem trimLine_length_le (s : Str) : (trimLine s).length ≤ s.length := by
  unfold trimLine
  rw [show str "\n" = [10] from rfl, show str "\r" = [13] from rfl]
  exact le_trans (trimSuffix_length_le _ 13) (trimSuffix_length_le _ 10)

theorem hasPrefix_append (pre rest : Str) : hasPrefix (pre ++ rest) pre = true := by
  simp [hasPrefix]

theorem cutPrefix_append (pre rest : Str) : cutPrefix (pre ++ rest) pre = some rest := by
  simp [cutPrefix, hasPrefix_append]

theorem cutPrefix_eq_some (s pre rest : Str) (h : cutPrefix s pre = some rest) :
    s = pre ++ rest := by
  unfold cutPrefix hasPrefix at h
  split_ifs at h with hp
  simp only [Bool.and_eq_true, decide_eq_true_eq, beq_iff_eq] at hp
  simp only [Option.some.injEq] at h
  rw [← h]
  conv_lhs => rw [← List.take_append_drop pre.length s]
  rw [hp.2]

theorem trimLine_rcv (rest : Str) : trimLine (str "+RCV=" ++ rest) = str "+RCV=" ++ trimLine rest := by
  have e : str "+RCV=" = [43, 82, 67, 86] ++ [61] := by decide
  rw [e, List.append_assoc, List.singleton_append, trimLine_append_cons _ _ 61 (by decide) (by decide)]
  simp

/-- What `classifyOutput` does with a line `+RCV=` + `rest`. -/
theorem classifyOutput_rcv (rest : Str) (L : Lora) :
    classifyOutput (str "+RCV=" ++ rest) L =
      if (parseReceivedMessage (trimLine rest)).2 then
        { L with RecievedData :=
            offer L.RecievedData L.buffLen (parseReceivedMessage (trimLine rest)).1 }
      else L := by
  unfold classifyOutput
  have h := trimLine_rcv rest
  unfold trimLine at h
  simp only [h, cutPrefix_append]
  rfl

/-! ## The received-message frame -/

/-- C1: round trip of the received-message frame.  For every address in 0..65535, every
payload of at most 240 arbitrary bytes (commas included) and every rssi and snr in
-128..127, `parseReceivedMessage` accepts the text
`dec(address),dec(len(payload)),payload,dec(rssi),dec(snr)` and returns the five fields:
`Address`, `Length`, `Data[:Length]` equal to the payload, rssi and snr; encoding the
returned record again gives the text back. -/
theorem C1_frame_roundtrip (address : Nat) (payload : Str) (rssi snr : Int)
    (ha : address ≤ 65535) (hn : payload.length ≤ 240)
    (hr : -128 ≤ rssi ∧ rssi ≤ 127) (hs : -128 ≤ snr ∧ snr ≤ 127) :
    (parseReceivedMessage (encodeFrame address payload rssi snr)).2 = true ∧
    (parseReceivedMessage (encodeFrame address payload rssi snr)).1.Address = address ∧
    (parseReceivedMessage (encodeFrame address payload rssi snr)).1.Length = payload.length ∧
    sliceTo (parseReceivedMessage (encodeFrame address payload rssi snr)).1.Data
      (parseReceivedMessage (encodeFrame address payload rssi snr)).1.Length = some payload ∧
    (parseReceivedMessage (encodeFrame address payload rssi snr)).1.ReceivedSignalStrengthIndicator
      = rssi ∧
    (parseReceivedMessage (encodeFrame address payload rssi snr)).1.SignalToNoiseRatio = snr ∧
    encodeFrame (parseReceivedMessage (encodeFrame address payload rssi snr)).1.Address
      ((parseReceivedMessage (encodeFrame address payload rssi snr)).1.Data.take
        (parseReceivedMessage (encodeFrame address payload rssi snr)).1.Length)
      (parseReceivedMessage (encodeFrame address payload rssi snr)).1.ReceivedSignalStrengthIndicator
      (parseReceivedMessage (encodeFrame address payload rssi snr)).1.SignalToNoiseRatio
      = encodeFrame address payload rssi snr := by
  rw [parseReceivedMessage_encodeFrame address payload rssi snr ha hn hr.1 hr.2 hs.1 hs.2]
  have hlen : payload.length ≤ (copyInto (List.replicate 240 0) payload).length := by
    rw [copyInto_length, List.length_replicate]
    exact hn
  simp only [sliceTo, hlen, if_true, copyInto_take payload hn, and_self]

/-- C1 at scenario C of the specification: address 50, payload `HELLO`, rssi -99, snr 40,
whose frame text is `50,5,HELLO,-99,40`. -/
theorem C1_frame_roundtrip_witness :
    encodeFrame 50 (str "HELLO") (-99) 40 = str "50,5,HELLO,-99,40" ∧
    (parseReceivedMessage (encodeFrame 50 (str "HELLO") (-99) 40)).2 = true ∧
    (parseReceivedMessage (encodeFrame 50 (str "HELLO") (-99) 40)).1.Address = 50 ∧
    (parseReceivedMessage (encodeFrame 50 (str "HELLO") (-99) 40)).1.Length = 5 ∧
    sliceTo (parseReceivedMessage (encodeFrame 50 (str "HELLO") (-99) 40)).1.Data
      (parseReceivedMessage (encodeFrame 50 (str "HELLO") (-99) 40)).1.Length
      = some (str "HELLO") :=
  have h := C1_frame_roundtrip 50 (str "HELLO") (-99) 40 (by decide) (by decide)
    (by decide) (by decide)
  ⟨by decide, h.1, h.2.1, h.2.2.1, h.2.2.2.1⟩

/-- C2 fails on the code, at scenario D: the unsolicited line
`+RCV=50,10,HELLO,-99,40\r\n` starts with `+RCV=` and the decoder rejects its remainder,
yet `classifyOutput` puts no fault event on the `Errors` sink, which is empty with
capacity 10, and leaves everything as it was; the same text without the prefix reaches
the fault path at the end of the function and is reported there. -/
theorem C2_rejected_frame_no_fault :
    hasPrefix (str "+RCV=50,10,HELLO,-99,40\r\n") (str "+RCV=") = true ∧
    (parseReceivedMessage (str "50,10,HELLO,-99,40")).2 = false ∧
    (Engine.init 10).lora.Errors.length < (Engine.init 10).lora.buffLen ∧
    (classifyOutput (str "+RCV=50,10,HELLO,-99,40\r\n") (Engine.init 10).lora).Errors = [] ∧
    classifyOutput (str "+RCV=50,10,HELLO,-99,40\r\n") (Engine.init 10).lora
      = (Engine.init 10).lora ∧
    (classifyOutput (str "50,10,HELLO,-99,40\r\n") (Engine.init 10).lora).Errors =
      [{ Code := none, Err := some (GoError.unknownData (str "50,10,HELLO,-99,40")) }] := by
  decide

/-- C3: for every frame text `a,l,rest` whose address field `a` and length field `l` parse
and whose declared length is greater than the number of bytes after the second comma,
`parseReceivedMessage` returns `ok = false`, and `classifyOutput` given `+RCV=` followed
by that text sends nothing on `RecievedData`. -/
theorem C3_overrun_rejected (a l rest : Str) (address length : Nat) (L : Lora)
    (ha : 44 ∉ a) (hl : 44 ∉ l)
    (hA : parseUint a 16 = (address, none)) (hL : parseUint l 8 = (length, none))
    (hover : rest.length < length) :
    (parseReceivedMessage (a ++ str "," ++ l ++ str "," ++ rest)).2 = false ∧
    (classifyOutput (str "+RCV=" ++ (a ++ str "," ++ l ++ str "," ++ rest)) L).RecievedData
      = L.RecievedData := by
  have key : ∀ r : Str, r.length < length →
      (parseReceivedMessage (a ++ 44 :: (l ++ 44 :: r))).2 = false := by
    intro r hr
    rw [parseReceivedMessage_fields a l r ha hl]
    simp [hA, hL, hr]
  have e1 : a ++ str "," ++ l ++ str "," ++ rest = a ++ 44 :: (l ++ 44 :: rest) := by
    simp [str_comma]
  have e2 : trimLine (a ++ 44 :: (l ++ 44 :: rest)) = a ++ 44 :: (l ++ 44 :: trimLine rest) := by
    have := trimLine_append_cons (a ++ 44 :: l) rest 44 (by decide) (by decide)
    simpa using this
  rw [e1]
  refine ⟨key rest hover, ?_⟩
  rw [classifyOutput_rcv, e2, key (trimLine rest) (lt_of_le_of_lt (trimLine_length_le rest) hover)]
  rfl

/-- C3 at the text `50,10,HELLO`: ten bytes declared, five present. -/
theorem C3_overrun_rejected_witness :
    (parseReceivedMessage (str "50" ++ str "," ++ str "10" ++ str "," ++ str "HELLO")).2 = false ∧
    (classifyOutput (str "+RCV=" ++ (str "50" ++ str "," ++ str "10" ++ str "," ++ str "HELLO"))
      (Engine.init 10).lora).RecievedData = (Engine.init 10).lora.RecievedData :=
  C3_overrun_rejected (str "50") (str "10") (str "HELLO") 50 10 (Engine.init 10).lora
    (by decide) (by decide) (by decide) (by decide) (by decide)

set_option maxRecDepth 100000 in
/-- C4 fails on the code: the frame `1,241,` + 241 bytes `A` + `,0,0` is accepted with
`Length = 241`, above 240; the array `Data` holds 240 bytes, only the first 240 payload
bytes are stored, and `Data[:Length]` is out of bounds. -/
theorem C4_length_above_240_accepted :
    (parseReceivedMessage (str "1,241," ++ List.replicate 241 65 ++ str ",0,0")).2 = true ∧
    (parseReceivedMessage (str "1,241," ++ List.replicate 241 65 ++ str ",0,0")).1.Length = 241 ∧
    (parseReceivedMessage (str "1,241," ++ List.replicate 241 65 ++ str ",0,0")).1.Data
      = List.replicate 240 65 ∧
    sliceTo (parseReceivedMessage (str "1,241," ++ List.replicate 241 65 ++ str ",0,0")).1.Data
      (parseReceivedMessage (str "1,241," ++ List.replicate 241 65 ++ str ",0,0")).1.Length
      = none := by
  decide

/-! ## The engine -/

/-- C5: for every line, whatever its content, a `Line` event taken while a command is in
flight (reply channel `c`) delivers exactly one `CommandResponse`, equal to
`parseCommandResponse line`, on `c`, sends nothing to `Errors` or `RecievedData`, and
leaves the engine Idle (no command in progress, no reply channel, no timer). -/
theorem C5_line_in_flight (e : Engine) (line : Str) (c : Nat)
    (hrun : e.terminated = false) (hfly : e.commandInProgress = true)
    (hchan : e.currentResponseChan = some c) :
    ∃ e1, step e (Event.Line line) = some e1 ∧
      e1.lora.replies = e.lora.replies ++ [(c, parseCommandResponse line)] ∧
      e1.lora.Errors = e.lora.Errors ∧ e1.lora.RecievedData = e.lora.RecievedData ∧
      e1.lora.portWrites = e.lora.portWrites ∧
      e1.commandInProgress = false ∧ e1.currentResponseChan = none ∧
      e1.commandTimeout = false ∧ e1.terminated = false := by
  simp [step, hrun, hfly, hchan, sendReply]

/-- C5 on a line that looks like a received message: with `AT+SEND` in flight on channel 7,
the line `+RCV=50,5,HELLO,-99,40\r\n` goes to channel 7 and to no sink. -/
theorem C5_line_in_flight_witness :
    ∃ e1, step { Engine.init 10 with commandInProgress := true, currentResponseChan := some 7,
                                     commandTimeout := true }
        (Event.Line (str "+RCV=50,5,HELLO,-99,40\r\n")) = some e1 ∧
      e1.lora.replies = [] ++ [(7, parseCommandResponse (str "+RCV=50,5,HELLO,-99,40\r\n"))] ∧
      e1.lora.Errors = [] ∧ e1.lora.RecievedData = [] ∧ e1.lora.portWrites = [] ∧
      e1.commandInProgress = false ∧ e1.currentResponseChan = none ∧
      e1.commandTimeout = false ∧ e1.terminated = false :=
  C5_line_in_flight { Engine.init 10 with commandInProgress := true,
                                          currentResponseChan := some 7, commandTimeout := true }
    (str "+RCV=50,5,HELLO,-99,40\r\n") 7 rfl rfl rfl

theorem classifyOutput_replies (line : Str) (L : Lora) :
    (classifyOutput line L).replies = L.replies := by
  unfold classifyOutput
  simp only
  split
  · split_ifs <;> rfl
  · split
    · split_ifs <;> rfl
    · rfl

theorem repliesOn_sendReply (L : Lora) (ch : Option Nat) (r : CommandResponse) (c : Nat) :
    repliesOn (sendReply L ch r) c = repliesOn L c + (if ch = some c then 1 else 0) := by
  cases ch with
  | none => simp [sendReply]
  | some d =>
    by_cases h : d = c
    · simp [sendReply, repliesOn, List.countP_append, h]
    · simp [sendReply, repliesOn, List.countP_append, h]

/-- One step never answers more than it takes: the responses on `c` plus the command in
flight on `c` grow by at most the commands submitted on `c`. -/
theorem step_balance_le (e e1 : Engine) (ev : Event) (c : Nat) (h : step e ev = some e1) :
    repliesOn e1.lora c + inFlightOn e1 c ≤
      repliesOn e.lora c + inFlightOn e c + submittedOn [ev] c := by
  have ht : e.terminated = false := by
    by_contra ht
    simp [step, ht] at h
  cases ev with
  | Closed =>
    simp only [step, ht, Bool.false_eq_true, if_false, Option.some.injEq] at h
    subst h
    simp [inFlightOn]
  | Submit cmd w =>
    by_cases htext : cmd.Text = []
    · simp only [step, ht, htext, Bool.false_eq_true, if_false, if_true, Option.some.injEq] at h
      subst h
      simp [inFlightOn]
    · cases w with
      | some err =>
        simp only [step, ht, htext, Bool.false_eq_true, if_false, Option.some.injEq] at h
        subst h
        simp only [repliesOn_sendReply, inFlightOn, submittedOn]
        simp only [repliesOn]
        by_cases hc : cmd.ResponseChan = some c <;> simp [hc]
        omega
      | none =>
        simp only [step, ht, htext, Bool.false_eq_true, if_false, Option.some.injEq] at h
        subst h
        simp only [inFlightOn, submittedOn, repliesOn]
        by_cases hc : cmd.ResponseChan = some c
        · simp [hc]
        · simp [hc]
  | Line line =>
    by_cases hp : e.commandInProgress = true
    · simp only [step, ht, hp, Bool.false_eq_true, if_false, if_true, Option.some.injEq] at h
      subst h
      simp only [repliesOn_sendReply, inFlightOn, submittedOn]
      by_cases hc : e.currentResponseChan = some c <;> simp [hc, hp]
    · simp only [step, ht, hp, Bool.false_eq_true, if_false, Option.some.injEq] at h
      subst h
      simp [inFlightOn, repliesOn, classifyOutput_replies, hp]
  | Timeout =>
    by_cases harm : e.commandTimeout = true
    · by_cases hp : e.commandInProgress = true
      · simp only [step, ht, hp, harm, Bool.false_eq_true, if_false, if_true,
          Option.some.injEq] at h
        subst h
        simp only [repliesOn_sendReply, inFlightOn, submittedOn]
        by_cases hc : e.currentResponseChan = some c <;> simp [hc, hp]
      · simp only [step, ht, hp, harm, Bool.false_eq_true, if_false, if_true,
          Option.some.injEq] at h
        subst h
        simp [inFlightOn, hp]
    · simp [step, ht, harm] at h
  | PortError err =>
    simp only [step, ht, Bool.false_eq_true, if_false, Option.some.injEq] at h
    subst h
    simp [inFlightOn, repliesOn, submittedOn]

/-- One orderly step answers exactly what it takes: when a command is taken only while
none is in flight and has a non-empty text, the responses on `c` plus the command in
flight on `c` grow by exactly the commands submitted on `c`. -/
theorem step_balance_eq (e e1 : Engine) (ev : Event) (c : Nat) (h : step e ev = some e1)
    (ho : orderly e [ev] = true) :
    repliesOn e1.lora c + inFlightOn e1 c =
      repliesOn e.lora c + inFlightOn e c + submittedOn [ev] c := by
  have ht : e.terminated = false := by
    by_contra ht
    simp [step, ht] at h
  cases ev with
  | Closed =>
    simp only [step, ht, Bool.false_eq_true, if_false, Option.some.injEq] at h
    subst h
    simp [inFlightOn, submittedOn]
  | Submit cmd w =>
    simp only [orderly, Bool.and_eq_true, Bool.not_eq_true', decide_eq_true_eq] at ho
    obtain ⟨⟨hidle, htext⟩, -⟩ := ho
    cases w with
    | some err =>
      simp only [step, ht, htext, Bool.false_eq_true, if_false, Option.some.injEq] at h
      subst h
      simp only [repliesOn_sendReply, inFlightOn, submittedOn]
      simp only [repliesOn]
      by_cases hc : cmd.ResponseChan = some c <;> simp [hc, hidle]
    | none =>
      simp only [step, ht, htext, Bool.false_eq_true, if_false, Option.some.injEq] at h
      subst h
      simp only [inFlightOn, submittedOn, repliesOn]
      by_cases hc : cmd.ResponseChan = some c
      · simp [hc, hidle]
      · simp [hc, hidle]
  | Line line =>
    by_cases hp : e.commandInProgress = true
    · simp only [step, ht, hp, Bool.false_eq_true, if_false, if_true, Option.some.injEq] at h
      subst h
      simp only [repliesOn_sendReply, inFlightOn, submittedOn]
      by_cases hc : e.currentResponseChan = some c <;> simp [hc, hp]
    · simp only [step, ht, hp, Bool.false_eq_true, if_false, Option.some.injEq] at h
      subst h
      simp [inFlightOn, repliesOn, submittedOn, classifyOutput_replies, hp]
  | Timeout =>
    by_cases harm : e.commandTimeout = true
    · by_cases hp : e.commandInProgress = true
      · simp only [step, ht, hp, harm, Bool.false_eq_true, if_false, if_true,
          Option.some.injEq] at h
        subst h
        simp only [repliesOn_sendReply, inFlightOn, submittedOn]
        by_cases hc : e.currentResponseChan = some c <;> simp [hc, hp]
      · simp only [step, ht, hp, harm, Bool.false_eq_true, if_false, if_true,
          Option.some.injEq] at h
        subst h
        simp [inFlightOn, submittedOn, hp]
    · simp [step, ht, harm] at h
  | PortError err =>
    simp only [step, ht, Bool.false_eq_true, if_false, Option.some.injEq] at h
    subst h
    simp [inFlightOn, repliesOn, submittedOn]

theorem submittedOn_cons (ev : Event) (evs : List Event) (c : Nat) :
    submittedOn (ev :: evs) c = submittedOn [ev] c + submittedOn evs c := by
  simp only [submittedOn, List.countP_cons, List.countP_nil]
  omega

theorem runEvents_balance_le (evs : List Event) (e e1 : Engine) (c : Nat)
    (h : runEvents e evs = some e1) :
    repliesOn e1.lora c + inFlightOn e1 c ≤
      repliesOn e.lora c + inFlightOn e c + submittedOn evs c := by
  induction evs generalizing e with
  | nil =>
    simp only [runEvents, Option.some.injEq] at h
    subst h
    simp [submittedOn]
  | cons ev rest ih =>
    simp only [runEvents] at h
    cases hs : step e ev with
    | none => simp [hs] at h
    | some e2 =>
      simp only [hs] at h
      have h1 := step_balance_le e e2 ev c hs
      have h2 := ih e2 h
      rw [submittedOn_cons]
      omega

theorem runEvents_balance_eq (evs : List Event) (e e1 : Engine) (c : Nat)
    (h : runEvents e evs = some e1) (ho : orderly e evs = true) :
    repliesOn e1.lora c + inFlightOn e1 c =
      repliesOn e.lora c + inFlightOn e c + submittedOn evs c := by
  induction evs generalizing e with
  | nil =>
    simp only [runEvents, Option.some.injEq] at h
    subst h
    simp [submittedOn]
  | cons ev rest ih =>
    simp only [runEvents] at h
    cases hs : step e ev with
    | none => simp [hs] at h
    | some e2 =>
      simp only [hs] at h
      simp only [orderly, hs, Bool.and_eq_true] at ho
      have ho1 : orderly e [ev] = true := by
        simp only [orderly, hs, Bool.and_eq_true, and_true]
        exact ho.1
      have h1 := step_balance_eq e e2 ev c hs ho1
      have h2 := ih e2 h ho.2
      rw [submittedOn_cons]
      omega

theorem step_inFlight_armed (e e2 : Engine) (ev : Event) (hs : step e ev = some e2)
    (h0 : e.commandInProgress = true → e.commandTimeout = true) :
    e2.commandInProgress = true → e2.commandTimeout = true := by
  have ht : e.terminated = false := by
    by_contra ht
    simp [step, ht] at hs
  cases ev with
  | Closed =>
    simp only [step, ht, Bool.false_eq_true, if_false, Option.some.injEq] at hs
    subst hs
    exact h0
  | Submit cmd w =>
    by_cases htext : cmd.Text = []
    · simp only [step, ht, htext, Bool.false_eq_true, if_false, if_true, Option.some.injEq] at hs
      subst hs
      exact h0
    · cases w with
      | some err =>
        simp only [step, ht, htext, Bool.false_eq_true, if_false, Option.some.injEq] at hs
        subst hs
        exact h0
      | none =>
        simp only [step, ht, htext, Bool.false_eq_true, if_false, Option.some.injEq] at hs
        subst hs
        simp
  | Line line =>
    by_cases hp : e.commandInProgress = true
    · simp only [step, ht, hp, Bool.false_eq_true, if_false, if_true, Option.some.injEq] at hs
      subst hs
      simp
    · simp only [step, ht, hp, Bool.false_eq_true, if_false, Option.some.injEq] at hs
      subst hs
      simp
  | Timeout =>
    by_cases harm : e.commandTimeout = true
    · simp only [step, ht, harm, Bool.false_eq_true, if_false, if_true, Option.some.injEq] at hs
      subst hs
      simp
    · simp [step, ht, harm] at hs
  | PortError err =>
    simp only [step, ht, Bool.false_eq_true, if_false, Option.some.injEq] at hs
    subst hs
    exact h0

/-- In every state the loop reaches, a command in flight has its timer armed. -/
theorem runEvents_inFlight_armed (evs : List Event) (e e1 : Engine)
    (h : runEvents e evs = some e1)
    (h0 : e.commandInProgress = true → e.commandTimeout = true) :
    e1.commandInProgress = true → e1.commandTimeout = true := by
  induction evs generalizing e with
  | nil =>
    simp only [runEvents, Option.some.injEq] at h
    subst h
    exact h0
  | cons ev rest ih =>
    simp only [runEvents] at h
    cases hs : step e ev with
    | none => simp [hs] at h
    | some e2 =>
      simp only [hs] at h
      exact ih e2 h (step_inFlight_armed e e2 ev hs h0)

/-- C6, as the specification states it, fails on four runs that each leave the command
submitted on channel 1 without a response although the engine is Idle or has terminated:
a second command taken while the first is in flight, then a reply line; a command with
empty text; the queue closed while the command is in flight; a port error while the
command is in flight. -/
theorem C6_counterexample :
    ((runEvents (Engine.init 10)
        [Event.Submit ⟨str "AT+SEND=2,2,hi", some 1⟩ none,
         Event.Submit ⟨str "AT+ADDRESS?", some 2⟩ none,
         Event.Line (str "+OK\r\n")]).map
      (fun s => (s.commandInProgress, s.terminated, repliesOn s.lora 1, repliesOn s.lora 2))
      = some (false, false, 0, 1)) ∧
    ((runEvents (Engine.init 10) [Event.Submit ⟨str "", some 1⟩ none]).map
      (fun s => (s.terminated, repliesOn s.lora 1)) = some (true, 0)) ∧
    ((runEvents (Engine.init 10)
        [Event.Submit ⟨str "AT+SEND=2,2,hi", some 1⟩ none, Event.Closed]).map
      (fun s => (s.terminated, repliesOn s.lora 1)) = some (true, 0)) ∧
    ((runEvents (Engine.init 10)
        [Event.Submit ⟨str "AT+SEND=2,2,hi", some 1⟩ none, Event.PortError (GoError.port 0)]).map
      (fun s => (s.terminated, repliesOn s.lora 1)) = some (true, 0)) := by
  decide

/-- C6, amended: for every finite sequence of engine events run from the start, no reply
channel has received more responses than commands were submitted on it (never more than
one per command); when every command has a non-empty text and is taken while no command
is in flight, the responses on a channel plus the command still in flight on it equal the
commands submitted on it, so that whenever no command is in flight each command has
received exactly one response; and a command with empty text, taken in any running state,
ends the loop and receives no response. -/
theorem C6_one_outcome_per_command (buffLen : Nat) (evs : List Event) (e1 : Engine) (c : Nat)
    (h : runEvents (Engine.init buffLen) evs = some e1) :
    repliesOn e1.lora c ≤ submittedOn evs c ∧
    (orderly (Engine.init buffLen) evs = true →
      repliesOn e1.lora c + inFlightOn e1 c = submittedOn evs c ∧
      (e1.commandInProgress = false → repliesOn e1.lora c = submittedOn evs c)) ∧
    (∀ (ch : Option Nat) (w : Option GoError), e1.terminated = false →
      step e1 (Event.Submit ⟨[], ch⟩ w) = some { e1 with terminated := true }) := by
  have h0 : repliesOn (Engine.init buffLen).lora c + inFlightOn (Engine.init buffLen) c = 0 := by
    simp [Engine.init, repliesOn, inFlightOn]
  have hle := runEvents_balance_le evs _ e1 c h
  refine ⟨by omega, fun ho => ?_, fun ch w hrun => by simp [step, hrun]⟩
  have heq := runEvents_balance_eq evs _ e1 c h ho
  refine ⟨by omega, fun hidle => ?_⟩
  have hz : inFlightOn e1 c = 0 := by simp [inFlightOn, hidle]
  omega

/-- C6 amended, on a run of two commands: the first answered by `+OK`, the second by its
timeout; channel 1 has one response for its one command. -/
theorem C6_one_outcome_per_command_witness :
    repliesOn
      (Lora.mk [] [] 10 [str "AT+ADDRESS=1\r\n", str "AT+BAND=915000000\r\n"]
        [(1, ⟨str "+OK", none⟩), (2, ⟨[], some ⟨none, some GoError.timeout⟩⟩)]) 1 ≤
      submittedOn
        [Event.Submit ⟨str "AT+ADDRESS=1", some 1⟩ none, Event.Line (str "+OK\r\n"),
         Event.Submit ⟨str "AT+BAND=915000000", some 2⟩ none, Event.Timeout] 1 ∧
    repliesOn
      (Lora.mk [] [] 10 [str "AT+ADDRESS=1\r\n", str "AT+BAND=915000000\r\n"]
        [(1, ⟨str "+OK", none⟩), (2, ⟨[], some ⟨none, some GoError.timeout⟩⟩)]) 1 =
      submittedOn
        [Event.Submit ⟨str "AT+ADDRESS=1", some 1⟩ none, Event.Line (str "+OK\r\n"),
         Event.Submit ⟨str "AT+BAND=915000000", some 2⟩ none, Event.Timeout] 1 :=
  have h := C6_one_outcome_per_command 10
      [Event.Submit ⟨str "AT+ADDRESS=1", some 1⟩ none, Event.Line (str "+OK\r\n"),
       Event.Submit ⟨str "AT+BAND=915000000", some 2⟩ none, Event.Timeout]
      (Engine.mk false none false false
        (Lora.mk [] [] 10 [str "AT+ADDRESS=1\r\n", str "AT+BAND=915000000\r\n"]
          [(1, ⟨str "+OK", none⟩), (2, ⟨[], some ⟨none, some GoError.timeout⟩⟩)]))
      1 (by decide)
  ⟨h.1, ((h.2.1 (by decide)).2 rfl)⟩

/-- C7 fails on the code: with `AT+SEND=2,2,hi` in flight on channel 1, the command
`AT+ADDRESS?` is taken from the queue at once, written to the transport, and made the
command in flight on channel 2; the first command has no response and is no longer
awaited. -/
theorem C7_submit_taken_while_in_flight :
    runEvents (Engine.init 10)
      [Event.Submit ⟨str "AT+SEND=2,2,hi", some 1⟩ none,
       Event.Submit ⟨str "AT+ADDRESS?", some 2⟩ none] =
    some (Engine.mk true (some 2) true false
      (Lora.mk [] [] 10 [str "AT+SEND=2,2,hi\r\n", str "AT+ADDRESS?\r\n"] [])) := by
  decide

/-- C8: for every command in flight with reply channel `c` and its timer armed, a
`Timeout` event delivers exactly one `CommandResponse` on `c`, a failure with empty
`Response`, `Code = nil` and the timeout error; the engine is then Idle with no timer, so
that no second `Timeout` can be taken, and a later command whose write succeeds (its text
is non-empty, or no write is made) is written and becomes the command in flight. -/
theorem C8_timeout_resolves (e : Engine) (c : Nat) (cmd : Command)
    (hrun : e.terminated = false) (hfly : e.commandInProgress = true)
    (hchan : e.currentResponseChan = some c) (harm : e.commandTimeout = true)
    (htext : cmd.Text ≠ []) :
    ∃ e1, step e Event.Timeout = some e1 ∧
      e1.lora.replies = e.lora.replies ++
        [(c, { Response := [], Error := some { Code := none, Err := some GoError.timeout } })] ∧
      e1.lora.Errors = e.lora.Errors ∧ e1.lora.RecievedData = e.lora.RecievedData ∧
      e1.commandInProgress = false ∧ e1.currentResponseChan = none ∧
      e1.commandTimeout = false ∧ e1.terminated = false ∧
      step e1 Event.Timeout = none ∧
      ∃ e2, step e1 (Event.Submit cmd none) = some e2 ∧
        e2.commandInProgress = true ∧ e2.currentResponseChan = cmd.ResponseChan ∧
        e2.commandTimeout = true ∧ e2.terminated = false ∧
        e2.lora.portWrites = e.lora.portWrites ++ [cmd.Text ++ str "\r\n"] ∧
        e2.lora.replies = e1.lora.replies := by
  simp [step, hrun, hfly, hchan, harm, htext, sendReply]

/-- C8 at scenario E of the specification: `AT+ADDRESS=1` in flight on channel 1 times
out, then `AT+ADDRESS?` is submitted on channel 2. -/
theorem C8_timeout_resolves_witness :
    ∃ e1, step (Engine.mk true (some 1) true false (Lora.mk [] [] 10 [str "AT+ADDRESS=1\r\n"] []))
        Event.Timeout = some e1 ∧
      e1.lora.replies = [] ++
        [(1, { Response := [], Error := some { Code := none, Err := some GoError.timeout } })] ∧
      e1.lora.Errors = [] ∧ e1.lora.RecievedData = [] ∧
      e1.commandInProgress = false ∧ e1.currentResponseChan = none ∧
      e1.commandTimeout = false ∧ e1.terminated = false ∧
      step e1 Event.Timeout = none ∧
      ∃ e2, step e1 (Event.Submit ⟨str "AT+ADDRESS?", some 2⟩ none) = some e2 ∧
        e2.commandInProgress = true ∧ e2.currentResponseChan = some 2 ∧
        e2.commandTimeout = true ∧ e2.terminated = false ∧
        e2.lora.portWrites = [str "AT+ADDRESS=1\r\n"] ++ [str "AT+ADDRESS?" ++ str "\r\n"] ∧
        e2.lora.replies = e1.lora.replies :=
  C8_timeout_resolves (Engine.mk true (some 1) true false (Lora.mk [] [] 10 [str "AT+ADDRESS=1\r\n"] []))
    1 ⟨str "AT+ADDRESS?", some 2⟩ rfl rfl rfl rfl (by decide)

/-- C9 fails on the code: with `AT+SEND=2,2,hi` in flight on channel 1, a port error puts
the error event on `Errors` and ends the loop, and nothing is sent on channel 1; the
ended loop takes no further command. -/
theorem C9_port_error_in_flight :
    runEvents (Engine.init 10)
      [Event.Submit ⟨str "AT+SEND=2,2,hi", some 1⟩ none, Event.PortError (GoError.port 0)] =
      some (Engine.mk true (some 1) true true
        (Lora.mk [⟨none, some (GoError.port 0)⟩] [] 10 [str "AT+SEND=2,2,hi\r\n"] [])) ∧
    repliesOn (Lora.mk [⟨none, some (GoError.port 0)⟩] [] 10 [str "AT+SEND=2,2,hi\r\n"] []) 1 = 0 ∧
    step (Engine.mk true (some 1) true true
        (Lora.mk [⟨none, some (GoError.port 0)⟩] [] 10 [str "AT+SEND=2,2,hi\r\n"] []))
      (Event.Submit ⟨str "AT+ADDRESS?", some 2⟩ none) = none := by
  decide

/-! ## Command replies -/

/-- C10: for every line, `parseCommandResponse line` has a non-nil `Error` if and only if
the line without its trailing line-feed and carriage-return is `+ERR=` followed by a text
that `strconv.Atoi` accepts; in that case `Error.Code` is the integer and `Error.Err` is
nil. -/
theorem C10_reply_failure_iff (line : Str) :
    ((parseCommandResponse line).Error ≠ none ↔
      ∃ digits n, trimLine line = str "+ERR=" ++ digits ∧ atoi digits = (n, none)) ∧
    (∀ digits n, trimLine line = str "+ERR=" ++ digits → atoi digits = (n, none) →
      (parseCommandResponse line).Error = some { Code := some n, Err := none }) := by
  have hok : ∀ digits, hasPrefix (str "+ERR=" ++ digits) (str "+OK") = false := by
    intro digits
    simp [hasPrefix, str]
  have key : ∀ digits n, trimLine line = str "+ERR=" ++ digits → atoi digits = (n, none) →
      (parseCommandResponse line).Error = some { Code := some n, Err := none } := by
    intro digits n ht ha
    unfold trimLine at ht
    unfold parseCommandResponse
    simp only [ht, hok, cutPrefix_append, ha]
    simp
  refine ⟨⟨fun h => ?_, fun ⟨digits, n, ht, ha⟩ => by rw [key digits n ht ha]; simp⟩, key⟩
  unfold parseCommandResponse at h
  simp only at h
  split_ifs at h with h1
  · exact absurd rfl h
  · split at h
    · rename_i digits hcut
      have ht := cutPrefix_eq_some _ _ _ hcut
      rcases ha : atoi digits with ⟨n, err⟩
      cases err with
      | none => exact ⟨digits, n, ht, ha⟩
      | some er =>
        simp [ha] at h
    · exact absurd rfl h

/-- C10 at scenario B of the specification: the reply `+ERR=10\r\n` yields code 10. -/
theorem C10_reply_failure_iff_witness :
    (parseCommandResponse (str "+ERR=10\r\n")).Error = some { Code := some 10, Err := none } :=
  (C10_reply_failure_iff (str "+ERR=10\r\n")).2 (str "10") 10 (by decide) (by decide)

theorem trimLine_crlf (t : Str) : trimLine (t ++ str "\r\n") = t := by
  have e : t ++ str "\r\n" = (t ++ [13]) ++ [10] := by
    rw [show str "\r\n" = [13, 10] from rfl]
    simp
  have a : ∀ (u : Str) (c : Nat), trimSuffix (u ++ [c]) [c] = u := by
    intro u c
    rw [trimSuffix_single, List.getLast?_concat, if_pos rfl, List.dropLast_concat]
  unfold trimLine
  rw [show str "\n" = [10] from rfl, show str "\r" = [13] from rfl, e, a, a]

theorem trimSuffix_is_prefix (s : Str) (c : Nat) : ∃ suf, s = trimSuffix s [c] ++ suf := by
  rw [trimSuffix_single]
  rcases List.eq_nil_or_concat s with rfl | ⟨t, l, rfl⟩
  · exact ⟨[], by simp⟩
  · split_ifs
    · exact ⟨[l], by simp⟩
    · exact ⟨[], by simp⟩

theorem trimLine_is_prefix (s : Str) : ∃ suf, s = trimLine s ++ suf := by
  unfold trimLine
  rw [show str "\n" = [10] from rfl, show str "\r" = [13] from rfl]
  obtain ⟨s1, h1⟩ := trimSuffix_is_prefix s 10
  obtain ⟨s2, h2⟩ := trimSuffix_is_prefix (trimSuffix s [10]) 13
  refine ⟨s2 ++ s1, ?_⟩
  rw [← List.append_assoc, ← h2, ← h1]

theorem hasPrefix_eq_true (s pre : Str) (h : hasPrefix s pre = true) :
    s = pre ++ s.drop pre.length := by
  unfold hasPrefix at h
  simp only [Bool.and_eq_true, decide_eq_true_eq, beq_iff_eq] at h
  conv_lhs => rw [← List.take_append_drop pre.length s]
  rw [h.2]

theorem hasPrefix_trimLine (line pre : Str) (h : hasPrefix line pre = false) :
    hasPrefix (trimLine line) pre = false := by
  by_contra hc
  have ht : hasPrefix (trimLine line) pre = true := by simpa using hc
  obtain ⟨suf, hs⟩ := trimLine_is_prefix line
  have e := hasPrefix_eq_true _ _ ht
  have : hasPrefix line pre = true := by
    rw [hs, e, List.append_assoc]
    exact hasPrefix_append _ _
  rw [h] at this
  exact absurd this (by decide)

theorem trimLine_err (rest : Str) : trimLine (str "+ERR=" ++ rest) = str "+ERR=" ++ trimLine rest := by
  have e : str "+ERR=" = [43, 69, 82, 82] ++ [61] := by decide
  rw [e, List.append_assoc, List.singleton_append, trimLine_append_cons _ _ 61 (by decide) (by decide)]
  simp

theorem cutPrefix_rcv_of_err (rest : Str) : cutPrefix (str "+ERR=" ++ rest) (str "+RCV=") = none := by
  simp [cutPrefix, hasPrefix, str]

/-- What `classifyOutput` does with a line `+ERR=` + `rest`. -/
theorem classifyOutput_err (rest : Str) (L : Lora) :
    classifyOutput (str "+ERR=" ++ rest) L =
      if (atoi (trimLine rest)).2 = none then
        { L with Errors :=
            offer L.Errors L.buffLen { Code := some (atoi (trimLine rest)).1, Err := none } }
      else L := by
  unfold classifyOutput
  have h := trimLine_err rest
  unfold trimLine at h
  simp only [h, cutPrefix_rcv_of_err, cutPrefix_append]
  rfl

/-- What `classifyOutput` does with a line that starts with neither `+RCV=` nor `+ERR=`. -/
theorem classifyOutput_unknown (line : Str) (L : Lora)
    (h1 : hasPrefix line (str "+RCV=") = false) (h2 : hasPrefix line (str "+ERR=") = false) :
    classifyOutput line L =
      { L with Errors := offer L.Errors L.buffLen
                { Code := none, Err := some (GoError.unknownData (trimLine line)) } } := by
  have t1 := hasPrefix_trimLine line _ h1
  have t2 := hasPrefix_trimLine line _ h2
  unfold trimLine at t1 t2
  unfold classifyOutput
  simp only [cutPrefix, t1, t2, Bool.false_eq_true, if_false]
  rfl

theorem atoi_decInt (i : Int) (h1 : -9223372036854775808 ≤ i) (h2 : i ≤ 9223372036854775807) :
    atoi (decInt i) = (i, none) := by
  unfold atoi decInt
  split_ifs with hneg
  · have hu := parseUint_dec 64 i.natAbs (by decide) (by norm_num; omega)
    have h3 : ¬ 9223372036854775808 < i.natAbs := by omega
    simp [parseInt, hu, h3]
    rw [abs_of_neg hneg]; omega
  · obtain ⟨c, t, hd, hc1, hc2⟩ := dec_head i.toNat
    have hu := parseUint_dec 64 i.toNat (by decide) (by norm_num; omega)
    rw [hd] at hu
    rw [hd]
    have hc43 : c ≠ 43 := by omega
    have hc45 : c ≠ 45 := by omega
    have h3 : ¬ 9223372036854775808 ≤ i.toNat := by omega
    have h4 : (i.toNat : Int) = i := by omega
    simp [parseInt, hc43, hu, hc45, h3, h4]

/-- C11: the reply text is carried verbatim without its terminator: for every text `t`,
`parseCommandResponse (t + "\r\n")` has `Response = t`, and when `t` starts with `+OK`
its `Error` is nil. -/
theorem C11_reply_text_verbatim (t : Str) :
    (parseCommandResponse (t ++ str "\r\n")).Response = t ∧
    (hasPrefix t (str "+OK") = true → (parseCommandResponse (t ++ str "\r\n")).Error = none) := by
  have h := trimLine_crlf t
  unfold trimLine at h
  unfold parseCommandResponse
  simp only [h]
  refine ⟨?_, fun hok => by simp [hok]⟩
  split_ifs
  · rfl
  · split
    · split_ifs <;> rfl
    · rfl

/-- C11 at scenario A of the specification: the reply `+OK\r\n` yields success with the
text `+OK`. -/
theorem C11_reply_text_verbatim_witness :
    (parseCommandResponse (str "+OK" ++ str "\r\n")).Response = str "+OK" ∧
    (parseCommandResponse (str "+OK" ++ str "\r\n")).Error = none :=
  ⟨(C11_reply_text_verbatim (str "+OK")).1, (C11_reply_text_verbatim (str "+OK")).2 (by decide)⟩

/-! ## Unsolicited lines -/

/-- C12 fails on the code, on the unsolicited line `+ERR=abc\r\n`: it does not start with
`+RCV=` and `abc` is no decimal integer, yet `classifyOutput` puts no fault event on the
`Errors` sink, which is empty with capacity 10, and leaves everything as it was; on the
same line `parseCommandResponse` falls through to its last case and returns the text. -/
theorem C12_unparsable_code_no_fault :
    hasPrefix (str "+ERR=abc\r\n") (str "+RCV=") = false ∧
    (atoi (str "abc")).2 ≠ none ∧
    (Engine.init 10).lora.Errors.length < (Engine.init 10).lora.buffLen ∧
    (classifyOutput (str "+ERR=abc\r\n") (Engine.init 10).lora).Errors = [] ∧
    classifyOutput (str "+ERR=abc\r\n") (Engine.init 10).lora = (Engine.init 10).lora ∧
    parseCommandResponse (str "+ERR=abc\r\n") = { Response := str "+ERR=abc", Error := none } := by
  decide

/-- C13: for every integer `n` of the range of `int` (64 bits), `classifyOutput` given the
unsolicited line `+ERR=` + dec(n) + `\r\n` offers exactly the event with `Code = n` and
`Err = nil` to `Errors`, which receives it when it has room, and puts nothing on
`RecievedData`. -/
theorem C13_unsolicited_error_code (n : Int) (L : Lora)
    (h1 : -9223372036854775808 ≤ n) (h2 : n ≤ 9223372036854775807) :
    classifyOutput (str "+ERR=" ++ decInt n ++ str "\r\n") L =
      { L with Errors := offer L.Errors L.buffLen { Code := some n, Err := none } } ∧
    (L.Errors.length < L.buffLen →
      (classifyOutput (str "+ERR=" ++ decInt n ++ str "\r\n") L).Errors =
        L.Errors ++ [{ Code := some n, Err := none }]) ∧
    (classifyOutput (str "+ERR=" ++ decInt n ++ str "\r\n") L).RecievedData = L.RecievedData := by
  have e : classifyOutput (str "+ERR=" ++ decInt n ++ str "\r\n") L =
      { L with Errors := offer L.Errors L.buffLen { Code := some n, Err := none } } := by
    rw [List.append_assoc, classifyOutput_err, trimLine_crlf, atoi_decInt n h1 h2]
    rfl
  rw [e]
  exact ⟨rfl, fun hcap => by simp [offer, hcap], rfl⟩

/-- C13 on the line `+ERR=12\r\n` (CRC error). -/
theorem C13_unsolicited_error_code_witness :
    decInt 12 = str "12" ∧
    (classifyOutput (str "+ERR=" ++ decInt 12 ++ str "\r\n") (Engine.init 10).lora).Errors =
      [] ++ [{ Code := some 12, Err := none }] :=
  ⟨by decide, (C13_unsolicited_error_code 12 (Engine.init 10).lora (by decide) (by decide)).2.1
    (by decide)⟩

/-! ## Failure outcomes -/

theorem replies_append_singleton {α : Type} (l : List α) (x y : α) (h : l ++ [x] = l ++ [y]) :
    x = y := by
  have := List.append_cancel_left h
  simpa using this

theorem replies_ne_append_singleton {α : Type} (l : List α) (x : α) : l ≠ l ++ [x] := by
  intro h
  have := congrArg List.length h
  simp at this

/-- The response that a `Timeout` step sends, when it sends one. -/
theorem step_timeout_reply (e e1 : Engine) (c : Nat) (r : CommandResponse)
    (h : step e Event.Timeout = some e1) (hr : e1.lora.replies = e.lora.replies ++ [(c, r)]) :
    r = { Response := [], Error := some { Code := none, Err := some GoError.timeout } } := by
  have ht : e.terminated = false := by
    by_contra ht
    simp [step, ht] at h
  by_cases harm : e.commandTimeout = true
  · by_cases hp : e.commandInProgress = true
    · simp only [step, ht, hp, harm, Bool.false_eq_true, if_false, if_true,
        Option.some.injEq] at h
      subst h
      cases hc : e.currentResponseChan with
      | none =>
        simp only [hc, sendReply] at hr
        exact absurd hr (replies_ne_append_singleton _ _)
      | some d =>
        simp only [hc, sendReply] at hr
        have := replies_append_singleton _ _ _ hr
        exact (Prod.mk.inj this).2.symm
    · simp only [step, ht, hp, harm, Bool.false_eq_true, if_false, if_true,
        Option.some.injEq] at h
      subst h
      exact absurd hr (replies_ne_append_singleton _ _)
  · simp [step, ht, harm] at h

/-- The response that a `Submit` step with a failed write sends, when it sends one. -/
theorem step_write_failure_reply (e e1 : Engine) (cmd : Command) (err : GoError) (c : Nat)
    (r : CommandResponse) (h : step e (Event.Submit cmd (some err)) = some e1)
    (hr : e1.lora.replies = e.lora.replies ++ [(c, r)]) :
    r = { Response := [], Error := some { Code := some UNK_ERR, Err := some err } } := by
  have ht : e.terminated = false := by
    by_contra ht
    simp [step, ht] at h
  by_cases htext : cmd.Text = []
  · simp only [step, ht, htext, Bool.false_eq_true, if_false, if_true, Option.some.injEq] at h
    subst h
    exact absurd hr (replies_ne_append_singleton _ _)
  · simp only [step, ht, htext, Bool.false_eq_true, if_false, Option.some.injEq] at h
    subst h
    cases hc : cmd.ResponseChan with
    | none =>
      simp only [hc, sendReply] at hr
      exact absurd hr (replies_ne_append_singleton _ _)
    | some d =>
      simp only [hc, sendReply] at hr
      have := replies_append_singleton _ _ _ hr
      exact (Prod.mk.inj this).2.symm

/-- The `Error` of `parseCommandResponse` is nil or a peripheral code with `Err` nil. -/
theorem parseCommandResponse_error_cases (line : Str) :
    (parseCommandResponse line).Error = none ∨
      ∃ n : Int, (parseCommandResponse line).Error = some { Code := some n, Err := none } := by
  unfold parseCommandResponse
  simp only
  split_ifs with h1
  · exact Or.inl rfl
  · split
    · rename_i digits hcut
      rcases ha : atoi digits with ⟨n, err⟩
      cases err with
      | none => exact Or.inr ⟨n, by simp⟩
      | some er => exact Or.inl (by simp)
    · exact Or.inl rfl

/-- The shape of a failure that `parseCommandResponse` reports. -/
theorem parseCommandResponse_failureShape (line : Str)
    (h : (parseCommandResponse line).Error ≠ none) :
    failureShape (parseCommandResponse line) = some (true, false) := by
  rcases parseCommandResponse_error_cases line with h0 | ⟨n, hn⟩
  · exact absurd h0 h
  · simp [failureShape, hn]

/-- C15: the three failure outcomes of a command are pairwise distinguishable by which of
`Error.Code` and `Error.Err` are nil.  A failure that `parseCommandResponse` reports
(the peripheral said no) has `Code` set and `Err` nil; the response a `Timeout` step sends
(no one answered) has `Code` nil and `Err` set; the response a `Submit` step sends when
the write fails (the link is dead) has both set; so no two of them are equal. -/
theorem C15_failures_distinguishable (line : Str) (e1 e1' e2 e2' : Engine) (c1 c2 : Nat)
    (cmd : Command) (err : GoError) (rT rW : CommandResponse)
    (hP : (parseCommandResponse line).Error ≠ none)
    (hT : step e1 Event.Timeout = some e1')
    (hTr : e1'.lora.replies = e1.lora.replies ++ [(c1, rT)])
    (hW : step e2 (Event.Submit cmd (some err)) = some e2')
    (hWr : e2'.lora.replies = e2.lora.replies ++ [(c2, rW)]) :
    failureShape (parseCommandResponse line) = some (true, false) ∧
    failureShape rT = some (false, true) ∧
    failureShape rW = some (true, true) ∧
    parseCommandResponse line ≠ rT ∧ parseCommandResponse line ≠ rW ∧ rT ≠ rW := by
  have sP := parseCommandResponse_failureShape line hP
  have eT := step_timeout_reply e1 e1' c1 rT hT hTr
  have eW := step_write_failure_reply e2 e2' cmd err c2 rW hW hWr
  have sT : failureShape rT = some (false, true) := by rw [eT]; rfl
  have sW : failureShape rW = some (true, true) := by rw [eW]; rfl
  refine ⟨sP, sT, sW, ?_, ?_, ?_⟩
  · intro h
    rw [h, sT] at sP
    exact absurd sP (by decide)
  · intro h
    rw [h, sW] at sP
    exact absurd sP (by decide)
  · intro h
    rw [h, sW] at sT
    exact absurd sT (by decide)

/-- C15 on the reply `+ERR=10\r\n`, a timeout of the command in flight on channel 1, and a
failed write of `AT+ADDRESS?` submitted on channel 2. -/
theorem C15_failures_distinguishable_witness :
    failureShape (parseCommandResponse (str "+ERR=10\r\n")) = some (true, false) ∧
    failureShape ⟨[], some ⟨none, some GoError.timeout⟩⟩ = some (false, true) ∧
    failureShape ⟨[], some ⟨some UNK_ERR, some (GoError.port 0)⟩⟩ = some (true, true) ∧
    parseCommandResponse (str "+ERR=10\r\n") ≠ ⟨[], some ⟨none, some GoError.timeout⟩⟩ ∧
    parseCommandResponse (str "+ERR=10\r\n") ≠ ⟨[], some ⟨some UNK_ERR, some (GoError.port 0)⟩⟩ ∧
    (⟨[], some ⟨none, some GoError.timeout⟩⟩ : CommandResponse) ≠
      ⟨[], some ⟨some UNK_ERR, some (GoError.port 0)⟩⟩ :=
  C15_failures_distinguishable (str "+ERR=10\r\n")
    (Engine.mk true (some 1) true false (Lora.mk [] [] 10 [str "AT+ADDRESS=1\r\n"] []))
    (Engine.mk false none false false (Lora.mk [] [] 10 [str "AT+ADDRESS=1\r\n"]
      [(1, ⟨[], some ⟨none, some GoError.timeout⟩⟩)]))
    (Engine.init 10)
    (Engine.mk false none false false (Lora.mk [] [] 10 [str "AT+ADDRESS?\r\n"]
      [(2, ⟨[], some ⟨some UNK_ERR, some (GoError.port 0)⟩⟩)]))
    1 2 ⟨str "AT+ADDRESS?", some 2⟩ (GoError.port 0)
    ⟨[], some ⟨none, some GoError.timeout⟩⟩ ⟨[], some ⟨some UNK_ERR, some (GoError.port 0)⟩⟩
    (by decide) (by decide) (by decide) (by decide) (by decide)

/-- C17: for every command with a non-empty text and reply channel `c` that is submitted
while the engine is Idle and whose transport write fails with `err`, the step sends
exactly one `CommandResponse` on `c`, with `Error.Err = err` and `Error.Code = UNK_ERR`,
arms no timer and makes no command the one in flight: the engine remains Idle. -/
theorem C17_write_failure (e : Engine) (cmd : Command) (c : Nat) (err : GoError)
    (hrun : e.terminated = false) (hidle : e.commandInProgress = false)
    (htext : cmd.Text ≠ []) (hchan : cmd.ResponseChan = some c) :
    ∃ e1, step e (Event.Submit cmd (some err)) = some e1 ∧
      e1.lora.replies = e.lora.replies ++
        [(c, { Response := [], Error := some { Code := some UNK_ERR, Err := some err } })] ∧
      e1.lora.portWrites = e.lora.portWrites ++ [cmd.Text ++ str "\r\n"] ∧
      e1.commandInProgress = false ∧ e1.commandTimeout = e.commandTimeout ∧
      e1.currentResponseChan = e.currentResponseChan ∧ e1.terminated = false ∧
      e1.lora.Errors = e.lora.Errors ∧ e1.lora.RecievedData = e.lora.RecievedData := by
  simp [step, hrun, hidle, htext, hchan, sendReply]

/-- C17 from the start state: the write of `AT+ADDRESS=1` fails. -/
theorem C17_write_failure_witness :
    ∃ e1, step (Engine.init 10)
        (Event.Submit ⟨str "AT+ADDRESS=1", some 1⟩ (some (GoError.port 0))) = some e1 ∧
      e1.lora.replies = [] ++
        [(1, { Response := [],
               Error := some { Code := some UNK_ERR, Err := some (GoError.port 0) } })] ∧
      e1.lora.portWrites = [] ++ [str "AT+ADDRESS=1" ++ str "\r\n"] ∧
      e1.commandInProgress = false ∧ e1.commandTimeout = false ∧
      e1.currentResponseChan = none ∧ e1.terminated = false ∧
      e1.lora.Errors = [] ∧ e1.lora.RecievedData = [] :=
  C17_write_failure (Engine.init 10) ⟨str "AT+ADDRESS=1", some 1⟩ 1 (GoError.port 0)
    rfl rfl (by decide) rfl

/-- C19, as the specification states it, fails on the run that submits `AT+SEND=2,2,hi` on
channel 1 and then closes the queue: the loop has ended, channel 1 has no response, and
neither the reply line nor the timeout can be taken any more. -/
theorem C19_counterexample :
    runEvents (Engine.init 10) [Event.Submit ⟨str "AT+SEND=2,2,hi", some 1⟩ none, Event.Closed] =
      some (Engine.mk true (some 1) true true (Lora.mk [] [] 10 [str "AT+SEND=2,2,hi\r\n"] [])) ∧
    step (Engine.mk true (some 1) true true (Lora.mk [] [] 10 [str "AT+SEND=2,2,hi\r\n"] []))
      (Event.Line (str "+OK\r\n")) = none ∧
    step (Engine.mk true (some 1) true true (Lora.mk [] [] 10 [str "AT+SEND=2,2,hi\r\n"] []))
      Event.Timeout = none := by
  decide

/-- C19, amended: on a shutdown request (the `Commands` queue is closed) the running loop
returns at once, whether or not a command is in flight: nothing is sent on any reply
channel or sink, and afterwards no event is taken, so no new command is accepted and a
command in flight is resolved neither by a reply line nor by its timeout. -/
theorem C19_close_terminates (e : Engine) (ev : Event) (hrun : e.terminated = false) :
    step e Event.Closed = some { e with terminated := true } ∧
    step { e with terminated := true } ev = none := by
  simp [step, hrun]

/-- C19 amended, with `AT+SEND=2,2,hi` in flight on channel 1 and its reply line arriving
after the close. -/
theorem C19_close_terminates_witness :
    step (Engine.mk true (some 1) true false (Lora.mk [] [] 10 [str "AT+SEND=2,2,hi\r\n"] []))
        Event.Closed =
      some { Engine.mk true (some 1) true false
              (Lora.mk [] [] 10 [str "AT+SEND=2,2,hi\r\n"] []) with terminated := true } ∧
    step { Engine.mk true (some 1) true false
            (Lora.mk [] [] 10 [str "AT+SEND=2,2,hi\r\n"] []) with terminated := true }
        (Event.Line (str "+OK\r\n")) = none :=
  C19_close_terminates
    (Engine.mk true (some 1) true false (Lora.mk [] [] 10 [str "AT+SEND=2,2,hi\r\n"] []))
    (Event.Line (str "+OK\r\n")) rfl

/-! ## `SendMessage` and `SetConfig` -/

/-- C14: `SendMessage` rejects an oversized payload before any transport interaction: for
every address and every data of more than 240 bytes it returns a non-nil `ErrorEvent` with
`Code = nil` and sends no command on `Commands`; for every data of at most 240 bytes it
sends exactly one command, with the text `AT+SEND=` dec(address) `,` dec(len(data)) `,`
data. -/
theorem C14_send_message (address : Nat) (data : Str) (resultChan : Nat)
    (outcome : Str → CommandResponse) :
    (data.length > 240 →
      (SendMessage address data resultChan outcome).1 = [] ∧
      ∃ ev, (SendMessage address data resultChan outcome).2 = some ev ∧ ev.Code = none) ∧
    (data.length ≤ 240 →
      (SendMessage address data resultChan outcome).1 =
        [⟨str "AT+SEND=" ++ dec address ++ str "," ++ dec data.length ++ str "," ++ data,
          some resultChan⟩]) := by
  constructor
  · intro h
    simp [SendMessage, h]
  · intro h
    have h' : ¬ data.length > 240 := by omega
    simp only [SendMessage, h', if_false]
    split <;> rfl

/-- C14 on the message of the test `TestLoRaSendMessage`: `Hello, LoRa!` to address 2,
answered `+OK`. -/
theorem C14_send_message_witness :
    (SendMessage 2 (str "Hello, LoRa!") 1 (fun _ => ⟨str "+OK", none⟩)).1 =
      [⟨str "AT+SEND=" ++ dec 2 ++ str "," ++ dec (str "Hello, LoRa!").length ++ str "," ++
          str "Hello, LoRa!", some 1⟩] ∧
    str "AT+SEND=" ++ dec 2 ++ str "," ++ dec (str "Hello, LoRa!").length ++ str "," ++
      str "Hello, LoRa!" = str "AT+SEND=2,12,Hello, LoRa!" :=
  ⟨(C14_send_message 2 (str "Hello, LoRa!") 1 (fun _ => ⟨str "+OK", none⟩)).2 (by decide),
    by decide⟩

theorem throughFirstFailure_of_all (outcome : Str → CommandResponse) (xs : List Str)
    (h : ∀ c ∈ xs, (outcome c).Error = none) : throughFirstFailure outcome xs = xs := by
  induction xs with
  | nil => rfl
  | cons x t ih =>
    have hx : (outcome x).Error = none := h x (List.mem_cons_self x t)
    have ht : ∀ c ∈ t, (outcome c).Error = none := fun c hc => h c (List.mem_cons_of_mem x hc)
    simp only [throughFirstFailure, hx, if_true, ih ht]

theorem throughFirstFailure_append_of_all (outcome : Str → CommandResponse) (xs ys : List Str)
    (h : ∀ c ∈ xs, (outcome c).Error = none) :
    throughFirstFailure outcome (xs ++ ys) = xs ++ throughFirstFailure outcome ys := by
  induction xs with
  | nil => rfl
  | cons x t ih =>
    have hx : (outcome x).Error = none := h x (List.mem_cons_self x t)
    have ht : ∀ c ∈ t, (outcome c).Error = none := fun c hc => h c (List.mem_cons_of_mem x hc)
    show throughFirstFailure outcome (x :: (t ++ ys)) = x :: (t ++ throughFirstFailure outcome ys)
    simp only [throughFirstFailure, hx, if_true, ih ht]

theorem throughFirstFailure_append_of_not_all (outcome : Str → CommandResponse)
    (xs ys : List Str) (h : ¬ ∀ c ∈ xs, (outcome c).Error = none) :
    throughFirstFailure outcome (xs ++ ys) = throughFirstFailure outcome xs := by
  induction xs with
  | nil => exact absurd (fun c hc => absurd hc (List.not_mem_nil c)) h
  | cons x t ih =>
    by_cases hx : (outcome x).Error = none
    · have ht : ¬ ∀ c ∈ t, (outcome c).Error = none := by
        intro hall
        apply h
        intro c hc
        rcases List.mem_cons.mp hc with rfl | hc
        · exact hx
        · exact hall c hc
      show throughFirstFailure outcome (x :: (t ++ ys)) = throughFirstFailure outcome (x :: t)
      simp only [throughFirstFailure, hx, if_true, ih ht]
    · show throughFirstFailure outcome (x :: (t ++ ys)) = throughFirstFailure outcome (x :: t)
      simp only [throughFirstFailure, hx, if_false]

theorem throughFirstFailure_all (outcome : Str → CommandResponse) (xs : List Str) :
    (∀ c ∈ throughFirstFailure outcome xs, (outcome c).Error = none) ↔
      ∀ c ∈ xs, (outcome c).Error = none := by
  induction xs with
  | nil => simp [throughFirstFailure]
  | cons x t ih =>
    by_cases hx : (outcome x).Error = none
    · simp [throughFirstFailure, hx, ih]
    · simp [throughFirstFailure, hx]

theorem setField_inv (resultChan : Nat) (outcome : Str → CommandResponse)
    (acc : List Command × Option ErrorEvent) (cmds : List Str) (cmd : Option Str) (what : Str)
    (h : SetConfigInv resultChan outcome acc cmds) :
    SetConfigInv resultChan outcome (setField resultChan outcome acc cmd what)
      (cmds ++ cmd.toList) := by
  obtain ⟨sent, ret⟩ := acc
  obtain ⟨h1, h2⟩ := h
  simp only at h1 h2
  cases ret with
  | some ev =>
    have hnot : ¬ ∀ c ∈ cmds, (outcome c).Error = none := by
      intro hall
      exact absurd (h2.mpr hall) (by simp)
    have hnot2 : ¬ ∀ c ∈ cmds ++ cmd.toList, (outcome c).Error = none := by
      intro hall
      exact hnot (fun c hc => hall c (List.mem_append_left _ hc))
    refine ⟨?_, ?_⟩
    · show sent = _
      rw [throughFirstFailure_append_of_not_all outcome cmds _ hnot]
      exact h1
    · show (some ev = none ↔ _)
      exact ⟨fun hx => absurd hx (by simp), fun hx => absurd hx hnot2⟩
  | none =>
    have hall : ∀ c ∈ cmds, (outcome c).Error = none := h2.mp rfl
    rw [throughFirstFailure_of_all outcome cmds hall] at h1
    cases cmd with
    | none =>
      refine ⟨?_, ?_⟩
      · show sent = _
        rw [throughFirstFailure_append_of_all outcome cmds _ hall]
        simpa [throughFirstFailure] using h1
      · show ((none : Option ErrorEvent) = none ↔ _)
        simpa using hall
    | some c =>
      have hsent : sent ++ [(⟨c, some resultChan⟩ : Command)] =
          (throughFirstFailure outcome (cmds ++ (some c).toList)).map
            (fun t => (⟨t, some resultChan⟩ : Command)) := by
        rw [throughFirstFailure_append_of_all outcome cmds _ hall, h1]
        by_cases hc : (outcome c).Error = none <;> simp [throughFirstFailure, hc]
      cases hc : (outcome c).Error with
      | none =>
        refine ⟨?_, ?_⟩
        · simp only [setField, sendCommand, hc]
          exact hsent
        · simp only [setField, sendCommand, hc, true_iff]
          intro c1 hc1
          rcases List.mem_append.mp hc1 with hm | hm
          · exact hall c1 hm
          · have : c1 = c := by simpa using hm
            rw [this, hc]
      | some err =>
        have hfail : ¬ ∀ c1 ∈ cmds ++ (some c).toList, (outcome c1).Error = none := by
          intro hx
          have := hx c (by simp)
          rw [hc] at this
          exact absurd this (by simp)
        cases hg : err.Err with
        | none =>
          refine ⟨?_, ?_⟩
          · simp only [setField, sendCommand, hc, hg]
            exact hsent
          · simp only [setField, sendCommand, hc, hg]
            exact ⟨fun hx => absurd hx (by simp), fun hx => absurd hx hfail⟩
        | some g =>
          refine ⟨?_, ?_⟩
          · simp only [setField, sendCommand, hc, hg]
            exact hsent
          · simp only [setField, sendCommand, hc, hg]
            exact ⟨fun hx => absurd hx (by simp), fun hx => absurd hx hfail⟩

theorem SetConfig_inv (config : Configuration) (resultChan : Nat)
    (outcome : Str → CommandResponse) :
    SetConfigInv resultChan outcome (SetConfig config resultChan outcome)
      (configCommands config) := by
  have h0 : SetConfigInv resultChan outcome ([], none) [] := by
    simp [SetConfigInv, throughFirstFailure]
  unfold SetConfig configCommands
  exact setField_inv _ _ _ _ _ _ (setField_inv _ _ _ _ _ _ (setField_inv _ _ _ _ _ _
    (setField_inv _ _ _ _ _ _ (setField_inv _ _ _ _ _ _ (setField_inv _ _ _ _ _ _
    (setField_inv _ _ _ _ _ _ (setField_inv _ _ _ _ _ _ h0)))))))

/-- C18: `SetConfig` ignores nil fields and stops at the first failure: for every
configuration and every assignment of outcomes to commands, the commands it sends are
those of the non-nil fields in the order ADDRESS, NETWORKID, BAND, PARAMETER, MODE, IPR,
CPIN, CRFOP, up to and including the first whose outcome has a non-nil `Error` (each with
the reply channel of the call); it returns nil if and only if none of the commands it
sent failed; and for the all-nil configuration it sends nothing and returns nil. -/
theorem C18_set_config (config : Configuration) (resultChan : Nat)
    (outcome : Str → CommandResponse) :
    (SetConfig config resultChan outcome).1 =
      (throughFirstFailure outcome (configCommands config)).map
        (fun t => (⟨t, some resultChan⟩ : Command)) ∧
    ((SetConfig config resultChan outcome).2 = none ↔
      ∀ c ∈ (SetConfig config resultChan outcome).1, (outcome c.Text).Error = none) ∧
    SetConfig ⟨none, none, none, none, none, none, none, none⟩ resultChan outcome = ([], none) := by
  obtain ⟨h1, h2⟩ := SetConfig_inv config resultChan outcome
  refine ⟨h1, ?_, rfl⟩
  rw [h2, h1, ← throughFirstFailure_all outcome (configCommands config)]
  simp

/-! ## The acceptance condition of the frame decoder -/

theorem parseReceivedMessage_no_comma (p : Str) (h : indexByte 44 p = none) :
    (parseReceivedMessage p).2 = false := by
  unfold parseReceivedMessage
  simp only [h]

theorem parseReceivedMessage_one_comma (a rest : Str) (ha : 44 ∉ a)
    (h : indexByte 44 rest = none) : (parseReceivedMessage (a ++ 44 :: rest)).2 = false := by
  have e1 : (a ++ 44 :: rest).drop (a.length + 1) = rest := by
    rw [show a ++ 44 :: rest = (a ++ [44]) ++ rest by simp]
    exact List.drop_left' (by simp)
  unfold parseReceivedMessage
  simp only [indexByte_append_of_not_mem 44 a _ ha, e1, h]
  split_ifs <;> rfl

/-- The decoder accepts a text cut at its first two commas only under the conditions of
the source, in its order. -/
theorem parseReceivedMessage_fields_ok (a l rest : Str) (ha : 44 ∉ a) (hl : 44 ∉ l)
    (h : (parseReceivedMessage (a ++ 44 :: (l ++ 44 :: rest))).2 = true) :
    (parseUint a 16).2 = none ∧ (parseUint l 8).2 = none ∧
    (parseUint l 8).1 ≤ rest.length ∧
    hasPrefix (rest.drop (parseUint l 8).1) [44] = true ∧
    ∃ idx3, indexByte 44 ((rest.drop (parseUint l 8).1).drop 1) = some idx3 ∧
      (parseInt (((rest.drop (parseUint l 8).1).drop 1).take idx3) 8).2 = none ∧
      (parseInt (((rest.drop (parseUint l 8).1).drop 1).drop (idx3 + 1)) 8).2 = none := by
  rw [parseReceivedMessage_fields a l rest ha hl] at h
  by_cases h1 : (parseUint a 16).2 = none
  swap
  · simp only [h1, ne_eq, not_true_eq_false, not_false_eq_true, if_true, if_false, Bool.not_true, Bool.not_false, Bool.false_eq_true, gt_iff_lt] at h
  by_cases h2 : (parseUint l 8).2 = none
  swap
  · simp only [h1, h2, ne_eq, not_true_eq_false, not_false_eq_true, if_true, if_false, Bool.not_true, Bool.not_false, Bool.false_eq_true, gt_iff_lt] at h
  by_cases h3 : rest.length < (parseUint l 8).1
  · simp only [h1, h2, h3, ne_eq, not_true_eq_false, not_false_eq_true, if_true, if_false, Bool.not_true, Bool.not_false, Bool.false_eq_true, gt_iff_lt] at h
  by_cases h4 : hasPrefix (rest.drop (parseUint l 8).1) [44] = true
  swap
  · simp only [h1, h2, h3, h4, ne_eq, not_true_eq_false, not_false_eq_true, if_true, if_false, Bool.not_true, Bool.not_false, Bool.false_eq_true, gt_iff_lt] at h
  refine ⟨h1, h2, by omega, h4, ?_⟩
  cases h5 : indexByte 44 ((rest.drop (parseUint l 8).1).drop 1) with
  | none => simp only [h1, h2, h3, h4, h5, ne_eq, not_true_eq_false, not_false_eq_true, if_true, if_false, Bool.not_true, Bool.not_false, Bool.false_eq_true, gt_iff_lt] at h
  | some idx3 =>
    refine ⟨idx3, rfl, ?_⟩
    by_cases h6 : (parseInt (((rest.drop (parseUint l 8).1).drop 1).take idx3) 8).2 = none
    swap
    · simp only [h1, h2, h3, h4, h5, h6, ne_eq, not_true_eq_false, not_false_eq_true, if_true, if_false, Bool.not_true, Bool.not_false, Bool.false_eq_true, gt_iff_lt] at h
    by_cases h7 : (parseInt (((rest.drop (parseUint l 8).1).drop 1).drop (idx3 + 1)) 8).2 = none
    swap
    · simp only [h1, h2, h3, h4, h5, h6, h7, ne_eq, not_true_eq_false, not_false_eq_true, if_true, if_false, Bool.not_true, Bool.not_false, Bool.false_eq_true, gt_iff_lt] at h
    exact ⟨h6, h7⟩

/-- The decoder accepts every text of the five-field form. -/
theorem parseReceivedMessage_accepts (a l d r s : Str) (ha : 44 ∉ a) (hl : 44 ∉ l)
    (hA : (parseUint a 16).2 = none) (hL : parseUint l 8 = (d.length, none))
    (hr : 44 ∉ r) (hR : (parseInt r 8).2 = none) (hS : (parseInt s 8).2 = none) :
    (parseReceivedMessage (a ++ 44 :: (l ++ 44 :: (d ++ 44 :: (r ++ 44 :: s))))).2 = true := by
  rw [parseReceivedMessage_fields a l _ ha hl]
  simp only [hA, hL, List.length_append, List.take_left, List.drop_left, hasPrefix,
    List.drop_succ_cons, List.drop_zero, indexByte_append_of_not_mem 44 r _ hr, hR, hS]
  simp [hR, hS]

/-- C16: the exact acceptance condition of the frame decoder.  `parseReceivedMessage p`
returns `ok = true` if and only if `p` is `a,l,d,r,s` where `a` and `l` contain no comma,
`a` parses as an unsigned decimal of 16 bits, `l` parses as an unsigned decimal of 8 bits
whose value is the byte length of `d` (which may contain commas), `r` contains no comma
and parses as a signed decimal of 8 bits, and `s` parses as a signed decimal of 8 bits; in
every other case it rejects. -/
theorem C16_acceptance_condition (p : Str) :
    (parseReceivedMessage p).2 = true ↔
      ∃ a l d r s : Str,
        p = a ++ str "," ++ l ++ str "," ++ d ++ str "," ++ r ++ str "," ++ s ∧
        44 ∉ a ∧ 44 ∉ l ∧ (parseUint a 16).2 = none ∧ parseUint l 8 = (d.length, none) ∧
        44 ∉ r ∧ (parseInt r 8).2 = none ∧ (parseInt s 8).2 = none := by
  have form : ∀ a l d r s : Str,
      a ++ str "," ++ l ++ str "," ++ d ++ str "," ++ r ++ str "," ++ s =
        a ++ 44 :: (l ++ 44 :: (d ++ 44 :: (r ++ 44 :: s))) := by
    intro a l d r s
    simp [str_comma]
  constructor
  · intro h
    cases h1 : indexByte 44 p with
    | none =>
      rw [parseReceivedMessage_no_comma p h1] at h
      exact absurd h (by decide)
    | some i1 =>
      obtain ⟨ha, hp⟩ := indexByte_some 44 p i1 h1
      cases h2 : indexByte 44 (p.drop (i1 + 1)) with
      | none =>
        rw [hp, parseReceivedMessage_one_comma _ _ ha h2] at h
        exact absurd h (by decide)
      | some i2 =>
        obtain ⟨hl, hrest⟩ := indexByte_some 44 _ i2 h2
        have hp2 : p = p.take i1 ++ 44 :: ((p.drop (i1 + 1)).take i2 ++
            44 :: (p.drop (i1 + 1)).drop (i2 + 1)) := by
          rw [← hrest]
          exact hp
        rw [hp2] at h
        obtain ⟨hA, hL, hlen, hpre, i3, h3, hR, hS⟩ := parseReceivedMessage_fields_ok _ _ _ ha hl h
        obtain ⟨hr, htail⟩ := indexByte_some 44 _ i3 h3
        have hafter := hasPrefix_eq_true _ _ hpre
        refine ⟨p.take i1, (p.drop (i1 + 1)).take i2,
          ((p.drop (i1 + 1)).drop (i2 + 1)).take (parseUint ((p.drop (i1 + 1)).take i2) 8).1,
          _, _, ?_, ha, hl, hA, ?_, hr, hR, hS⟩
        · rw [form, ← htail]
          have e : ((p.drop (i1 + 1)).drop (i2 + 1)).take (parseUint ((p.drop (i1 + 1)).take i2) 8).1
              ++ 44 :: (((p.drop (i1 + 1)).drop (i2 + 1)).drop
                (parseUint ((p.drop (i1 + 1)).take i2) 8).1).drop 1
              = (p.drop (i1 + 1)).drop (i2 + 1) := by
            have e2 : (([44] : Str).length) = 1 := rfl
            rw [e2] at hafter
            rw [show ∀ (x : Nat) (t : Str), x :: t = [x] ++ t from fun _ _ => rfl, ← hafter,
              List.take_append_drop]
          rw [e]
          exact hp2
        · rw [List.length_take, Nat.min_eq_left hlen]
          exact Prod.ext rfl hL
  · rintro ⟨a, l, d, r, s, hp, ha, hl, hA, hL, hr, hR, hS⟩
    rw [hp, form]
    exact parseReceivedMessage_accepts a l d r s ha hl hA hL hr hR hS

/-! ## Totality of the frame decoder -/

theorem indexByte_lt (c : Nat) (s : Str) (i : Nat) (h : indexByte c s = some i) :
    i < s.length := by
  obtain ⟨-, hs⟩ := indexByte_some c s i h
  have := congrArg List.length hs
  simp only [List.length_append, List.length_cons, List.length_take, List.length_drop] at this
  omega

theorem sliceTo_of_le (a : List Nat) (n : Nat) (h : n ≤ a.length) :
    sliceTo a n = some (a.take n) := by
  simp [sliceTo, h]

theorem sliceFrom_of_le (s : Str) (lo : Nat) (h : lo ≤ s.length) :
    sliceFrom s lo = some (s.drop lo) := by
  simp [sliceFrom, h]

theorem slice_of_le (s : Str) (lo hi : Nat) (h1 : lo ≤ hi) (h2 : hi ≤ s.length) :
    slice s lo hi = some ((s.take hi).drop lo) := by
  simp [slice, h1, h2]

theorem parseReceivedMessageChecked_eq (p : Str) :
    parseReceivedMessageChecked p = some (parseReceivedMessage p) := by
  unfold parseReceivedMessageChecked parseReceivedMessage
  cases h1 : indexByte 44 p with
  | none => rfl
  | some i1 =>
    have b1 := indexByte_lt 44 p i1 h1
    simp only [sliceTo_of_le p i1 (le_of_lt b1), sliceFrom_of_le p (i1 + 1) b1, Option.some_bind]
    rcases hA : parseUint (p.take i1) 16 with ⟨addr, e1⟩
    simp only
    by_cases he1 : e1 = none
    swap
    · simp only [he1, ne_eq, not_false_eq_true, if_true]
    simp only [he1, ne_eq, not_true_eq_false, if_false]
    cases h2 : indexByte 44 (p.drop (i1 + 1)) with
    | none => rfl
    | some i2 =>
      have b2 := indexByte_lt 44 _ i2 h2
      simp only [sliceTo_of_le _ i2 (le_of_lt b2), Option.some_bind]
      rcases hL : parseUint ((p.drop (i1 + 1)).take i2) 8 with ⟨len, e2⟩
      simp only
      by_cases he2 : e2 = none
      swap
      · simp only [he2, ne_eq, not_false_eq_true, if_true]
      simp only [he2, ne_eq, not_true_eq_false, if_false]
      by_cases h3 : i1 + 1 + i2 + 1 + len > p.length
      · simp only [h3, if_true]
      simp only [h3, if_false]
      have b3 : i1 + 1 + i2 + 1 + len ≤ p.length := by omega
      simp only [slice_of_le p (i1 + 1 + i2 + 1) (i1 + 1 + i2 + 1 + len) (by omega) b3,
        sliceFrom_of_le p _ b3, Option.some_bind]
      by_cases h4 : hasPrefix (p.drop (i1 + 1 + i2 + 1 + len)) [44] = true
      swap
      · simp only [h4, Bool.not_false, Bool.not_true, if_true, Bool.false_eq_true, not_false_eq_true]
      have b4 : 1 ≤ (p.drop (i1 + 1 + i2 + 1 + len)).length := by
        simp only [hasPrefix, Bool.and_eq_true, decide_eq_true_eq] at h4
        exact h4.1
      simp only [h4, Bool.not_true, Bool.false_eq_true, if_false, sliceFrom_of_le _ 1 b4,
        Option.some_bind]
      cases h5 : indexByte 44 ((p.drop (i1 + 1 + i2 + 1 + len)).drop 1) with
      | none => rfl
      | some i3 =>
        have b5 := indexByte_lt 44 _ i3 h5
        simp only [sliceTo_of_le _ i3 (le_of_lt b5), sliceFrom_of_le _ (i3 + 1) b5,
          Option.some_bind]
        rcases hR : parseInt (((p.drop (i1 + 1 + i2 + 1 + len)).drop 1).take i3) 8 with ⟨rssi, e3⟩
        simp only
        by_cases he3 : e3 = none
        swap
        · simp only [he3, ne_eq, not_false_eq_true, if_true]
        simp only [he3, ne_eq, not_true_eq_false, if_false]
        rcases hS : parseInt (((p.drop (i1 + 1 + i2 + 1 + len)).drop 1).drop (i3 + 1)) 8
          with ⟨snr, e4⟩
        simp only
        by_cases he4 : e4 = none
        · simp only [he4, ne_eq, not_true_eq_false, if_false]
        · simp only [he4, ne_eq, not_false_eq_true, if_true]

/-- C20: the frame decoder is total.  For every input string, of any length and content,
every slice expression of `parseReceivedMessage` is within its bounds: the decoder with
all slices checked panics on no input and returns the pair the decoder returns. -/
theorem C20_decoder_total (p : Str) :
    parseReceivedMessageChecked p = some (parseReceivedMessage p) ∧
    ∃ msg ok, parseReceivedMessageChecked p = some (msg, ok) :=
  ⟨parseReceivedMessageChecked_eq p,
    (parseReceivedMessage p).1, (parseReceivedMessage p).2, parseReceivedMessageChecked_eq p⟩

/-! ## A command with empty text -/

/-- C21: a command with empty text terminates the engine silently.  For every state in
which the loop runs, with or without a command in flight, a `Submit` event whose command
`Text` is empty makes no call of `port.Write`, sends no `CommandResponse` on any reply
channel (the command's own or that of a command in flight), puts nothing on the sinks, and
ends the loop. -/
theorem C21_empty_text_terminates (e : Engine) (ch : Option Nat) (w : Option GoError)
    (hrun : e.terminated = false) :
    ∃ e1, step e (Event.Submit ⟨[], ch⟩ w) = some e1 ∧
      e1.terminated = true ∧ e1.lora.portWrites = e.lora.portWrites ∧
      e1.lora.replies = e.lora.replies ∧ e1.lora = e.lora ∧
      e1.commandInProgress = e.commandInProgress ∧
      e1.currentResponseChan = e.currentResponseChan ∧
      ∀ ev, step e1 ev = none := by
  refine ⟨{ e with terminated := true }, ?_, rfl, rfl, rfl, rfl, rfl, rfl, ?_⟩
  · simp [step, hrun]
  · intro ev
    simp [step]

/-- C21 with `AT+SEND=2,2,hi` in flight on channel 1 and an empty command submitted on
channel 2. -/
theorem C21_empty_text_terminates_witness :
    ∃ e1, step (Engine.mk true (some 1) true false (Lora.mk [] [] 10 [str "AT+SEND=2,2,hi\r\n"] []))
        (Event.Submit ⟨[], some 2⟩ none) = some e1 ∧
      e1.terminated = true ∧ e1.lora.portWrites = [str "AT+SEND=2,2,hi\r\n"] ∧
      e1.lora.replies = [] ∧ e1.lora = Lora.mk [] [] 10 [str "AT+SEND=2,2,hi\r\n"] [] ∧
      e1.commandInProgress = true ∧ e1.currentResponseChan = some 1 ∧
      ∀ ev, step e1 ev = none :=
  C21_empty_text_terminates
    (Engine.mk true (some 1) true false (Lora.mk [] [] 10 [str "AT+SEND=2,2,hi\r\n"] []))
    (some 2) none rfl

/-! ## A line-feed inside a payload -/

theorem indexByte_of_mem (c : Nat) (s : Str) (h : c ∈ s) : ∃ i, indexByte c s = some i := by
  induction s with
  | nil => exact absurd h (List.not_mem_nil c)
  | cons b t ih =>
    by_cases hb : b = c
    · exact ⟨0, by simp [indexByte, hb]⟩
    · have ht : c ∈ t := by
        rcases List.mem_cons.mp h with e | e
        · exact absurd e.symm hb
        · exact e
      obtain ⟨i, hi⟩ := ih ht
      exact ⟨i + 1, by simp [indexByte, hb, hi]⟩

theorem readLinesAux_append_lf (cur p rest : Str) (h : 10 ∉ p) :
    readLinesAux cur (p ++ 10 :: rest) = (cur ++ p ++ [10]) :: readLinesAux [] rest := by
  induction p generalizing cur with
  | nil => simp [readLinesAux]
  | cons b t ih =>
    have hb : b ≠ 10 := fun e => h (by simp [e])
    have ht : 10 ∉ t := fun e => h (by simp [e])
    show readLinesAux cur (b :: (t ++ 10 :: rest)) = _
    simp only [readLinesAux, hb, if_false]
    rw [ih (cur ++ [b]) ht]
    simp

theorem readLinesAux_length (cur s : Str) :
    ∀ line ∈ readLinesAux cur s, line.length ≤ cur.length + s.length := by
  induction s generalizing cur with
  | nil =>
    intro line hl
    simp [readLinesAux] at hl
  | cons b t ih =>
    intro line hl
    simp only [readLinesAux] at hl
    split_ifs at hl with hb
    · rcases List.mem_cons.mp hl with e | e
      · rw [e]
        simp
      · have := ih [] line e
        simp only [List.length_nil, List.length_cons] at this ⊢
        omega
    · have := ih (cur ++ [b]) line hl
      simp only [List.length_append, List.length_cons, List.length_nil] at this ⊢
      omega

theorem decFuel_length (fuel k d : Nat) (h : k < 10 ^ (d + 1)) :
    (decFuel fuel k).length ≤ d + 1 := by
  induction fuel generalizing k d with
  | zero => simp [decFuel]
  | succ f ih =>
    simp only [decFuel]
    split_ifs with h10
    · simp
    · cases d with
      | zero =>
        simp at h
        omega
      | succ d1 =>
        have hq : k / 10 < 10 ^ (d1 + 1) := by
          apply Nat.div_lt_of_lt_mul
          rw [pow_succ] at h
          omega
        have := ih (k / 10) d1 hq
        simp only [List.length_append, List.length_cons, List.length_nil]
        omega

theorem decInt_length_le (i : Int) (h1 : -128 ≤ i) (h2 : i ≤ 127) : (decInt i).length ≤ 4 := by
  unfold decInt dec
  split_ifs
  · have := decFuel_length i.natAbs i.natAbs 2 (by norm_num; omega)
    simp only [List.length_cons]
    omega
  · have := decFuel_length i.toNat i.toNat 2 (by norm_num; omega)
    omega

theorem parseUint_ok_ne_nil (s : Str) (b : Nat) (h : (parseUint s b).2 = none) : s ≠ [] := by
  intro e
  rw [e] at h
  simp [parseUint] at h

theorem parseInt_ok_ne_nil (s : Str) (b : Nat) (h : (parseInt s b).2 = none) : s ≠ [] := by
  intro e
  rw [e] at h
  simp [parseInt] at h

/-- The `Length` of an accepted text cut at its first two commas. -/
theorem parseReceivedMessage_fields_length (a l rest : Str) (ha : 44 ∉ a) (hl : 44 ∉ l)
    (h : (parseReceivedMessage (a ++ 44 :: (l ++ 44 :: rest))).2 = true) :
    (parseReceivedMessage (a ++ 44 :: (l ++ 44 :: rest))).1.Length = (parseUint l 8).1 % 2 ^ 8 := by
  obtain ⟨h1, h2, h3, h4, i3, h5, h6, h7⟩ := parseReceivedMessage_fields_ok a l rest ha hl h
  have h3' : ¬ rest.length < (parseUint l 8).1 := by omega
  rw [parseReceivedMessage_fields a l rest ha hl]
  simp only [h1, h2, h3', h4, h5, h6, h7, ne_eq, not_true_eq_false, not_false_eq_true, if_true, if_false, Bool.not_true, Bool.not_false, Bool.false_eq_true, gt_iff_lt]

/-- An accepted text is at least eight bytes longer than its `Length`: four commas and
four non-empty numbers around the payload. -/
theorem parseReceivedMessage_ok_length (p : Str) (h : (parseReceivedMessage p).2 = true) :
    (parseReceivedMessage p).1.Length + 8 ≤ p.length := by
  cases h1 : indexByte 44 p with
  | none =>
    rw [parseReceivedMessage_no_comma p h1] at h
    exact absurd h (by decide)
  | some i1 =>
    obtain ⟨ha, hp⟩ := indexByte_some 44 p i1 h1
    cases h2 : indexByte 44 (p.drop (i1 + 1)) with
    | none =>
      rw [hp, parseReceivedMessage_one_comma _ _ ha h2] at h
      exact absurd h (by decide)
    | some i2 =>
      obtain ⟨hl, hrest⟩ := indexByte_some 44 _ i2 h2
      have hp2 : p = p.take i1 ++ 44 :: ((p.drop (i1 + 1)).take i2 ++
          44 :: (p.drop (i1 + 1)).drop (i2 + 1)) := by
        rw [← hrest]
        exact hp
      generalize p.take i1 = a at ha hp2
      generalize (p.drop (i1 + 1)).take i2 = l at hl hp2
      generalize (p.drop (i1 + 1)).drop (i2 + 1) = rest at hp2
      subst hp2
      obtain ⟨hA, hL, hlen, hpre, i3, h3, hR, hS⟩ := parseReceivedMessage_fields_ok a l rest ha hl h
      rw [parseReceivedMessage_fields_length a l rest ha hl h]
      have hmod : (parseUint l 8).1 % 2 ^ 8 ≤ (parseUint l 8).1 := Nat.mod_le _ _
      have na := List.length_pos.mpr (parseUint_ok_ne_nil a 16 hA)
      have nl := List.length_pos.mpr (parseUint_ok_ne_nil l 8 hL)
      have nr := List.length_pos.mpr (parseInt_ok_ne_nil _ 8 hR)
      have ns := List.length_pos.mpr (parseInt_ok_ne_nil _ 8 hS)
      have npre : 1 ≤ (rest.drop (parseUint l 8).1).length := by
        simp only [hasPrefix, Bool.and_eq_true, decide_eq_true_eq] at hpre
        exact hpre.1
      simp only [List.length_take, List.length_drop] at nr ns npre
      simp only [List.length_append, List.length_cons]
      omega

theorem mem_offer {α : Type} (q : List α) (cap : Nat) (x m : α) (h : m ∈ offer q cap x) :
    m ∈ q ∨ m = x := by
  unfold offer at h
  split_ifs at h
  · simpa using h
  · exact Or.inl h

/-- A line changes `RecievedData` only by offering the message decoded from what follows
`+RCV=`. -/
theorem classifyOutput_received_cases (line : Str) (L : Lora) :
    (classifyOutput line L).RecievedData = L.RecievedData ∨
    ∃ T, trimLine line = str "+RCV=" ++ T ∧ (parseReceivedMessage T).2 = true ∧
      (classifyOutput line L).RecievedData =
        offer L.RecievedData L.buffLen (parseReceivedMessage T).1 := by
  unfold classifyOutput
  simp only
  cases hcut : cutPrefix (trimSuffix (trimSuffix line (str "\n")) (str "\r")) (str "+RCV=") with
  | some T =>
    have ht := cutPrefix_eq_some _ _ _ hcut
    simp only
    by_cases hok : (parseReceivedMessage T).2 = true
    · right
      refine ⟨T, ht, hok, ?_⟩
      rcases hp : parseReceivedMessage T with ⟨msg, ok⟩
      rw [hp] at hok
      simp only at hok
      simp only [hok, if_true]
    · left
      rcases hp : parseReceivedMessage T with ⟨msg, ok⟩
      rw [hp] at hok
      simp only at hok
      simp only [hok, Bool.false_eq_true, if_false]
  | none =>
    left
    simp only
    split
    · split_ifs <;> rfl
    · rfl

theorem trimLine_lf (t : Str) : trimLine (t ++ [10]) = trimSuffix t [13] := by
  unfold trimLine
  rw [show str "\n" = [10] from rfl, show str "\r" = [13] from rfl]
  congr 1
  rw [trimSuffix_single, List.getLast?_concat, if_pos rfl, List.dropLast_concat]

/-- The first line of a frame cut at a line-feed of its payload is rejected: fewer bytes
follow the second comma than the length field declares. -/
theorem classifyOutput_cut_frame (address n : Nat) (p1 : Str) (L : Lora)
    (hn : n < 256) (hp : p1.length < n) :
    (classifyOutput (str "+RCV=" ++ (dec address ++ 44 :: (dec n ++ 44 :: p1)) ++ [10]) L).RecievedData
      = L.RecievedData := by
  have e2 : trimLine (dec address ++ 44 :: (dec n ++ 44 :: (p1 ++ [10]))) =
      dec address ++ 44 :: (dec n ++ 44 :: trimSuffix p1 [13]) := by
    have := trimLine_append_cons (dec address ++ 44 :: dec n) (p1 ++ [10]) 44 (by decide)
      (by decide)
    rw [trimLine_lf] at this
    simpa using this
  have hlen : (trimSuffix p1 [13]).length < n :=
    lt_of_le_of_lt (trimSuffix_length_le p1 13) hp
  have hL := parseUint_dec 8 n (by decide) (by norm_num; omega)
  have key : (parseReceivedMessage (dec address ++ 44 :: (dec n ++ 44 :: trimSuffix p1 [13]))).2
      = false := by
    rw [parseReceivedMessage_fields _ _ _ (dec_no_comma _) (dec_no_comma _)]
    by_cases hA : (parseUint (dec address) 16).2 = none
    · simp [hA, hL, hlen]
    · simp [hA]
  have e3 : str "+RCV=" ++ (dec address ++ 44 :: (dec n ++ 44 :: p1)) ++ [10] =
      str "+RCV=" ++ (dec address ++ 44 :: (dec n ++ 44 :: (p1 ++ [10]))) := by
    simp
  rw [e3, classifyOutput_rcv, e2, key]
  rfl

theorem classifyLines_received (lines : List Str) (Q : RecievedData → Prop)
    (h : ∀ line ∈ lines, ∀ (L1 : Lora) (m : RecievedData),
      m ∈ (classifyOutput line L1).RecievedData → m ∈ L1.RecievedData ∨ Q m)
    (L : Lora) (m : RecievedData) (hm : m ∈ (classifyLines lines L).RecievedData) :
    m ∈ L.RecievedData ∨ Q m := by
  induction lines generalizing L with
  | nil => exact Or.inl hm
  | cons line rest ih =>
    have hrest : ∀ l ∈ rest, ∀ (L1 : Lora) (m : RecievedData),
        m ∈ (classifyOutput l L1).RecievedData → m ∈ L1.RecievedData ∨ Q m :=
      fun l hl => h l (List.mem_cons_of_mem _ hl)
    have hm' : m ∈ (classifyLines rest (classifyOutput line L)).RecievedData := hm
    rcases ih hrest (classifyOutput line L) hm' with h1 | h1
    · exact h line (List.mem_cons_self _ _) L m h1
    · exact Or.inr h1

/-- The lines of the stream of a frame whose payload is `p1` + line-feed + `p2`, with no
line-feed in `p1`: the frame cut after `p1`, then the lines of what follows. -/
theorem readLines_frame (address : Nat) (p1 p2 : Str) (rssi snr : Int) (hp1 : 10 ∉ p1) :
    readLines (str "+RCV=" ++ encodeFrame address (p1 ++ 10 :: p2) rssi snr ++ str "\r\n") =
      (str "+RCV=" ++ (dec address ++ 44 :: (dec (p1 ++ 10 :: p2).length ++ 44 :: p1)) ++ [10]) ::
        readLines (p2 ++ 44 :: (decInt rssi ++ 44 :: (decInt snr ++ [13, 10]))) := by
  have hs : str "+RCV=" ++ encodeFrame address (p1 ++ 10 :: p2) rssi snr ++ str "\r\n" =
      (str "+RCV=" ++ (dec address ++ 44 :: (dec (p1 ++ 10 :: p2).length ++ 44 :: p1))) ++
        10 :: (p2 ++ 44 :: (decInt rssi ++ 44 :: (decInt snr ++ [13, 10]))) := by
    rw [show str "\r\n" = [13, 10] from rfl]
    unfold encodeFrame
    simp only [str_comma, List.append_assoc, List.cons_append, List.nil_append]
  have hnot : 10 ∉ str "+RCV=" ++ (dec address ++ 44 :: (dec (p1 ++ 10 :: p2).length ++ 44 :: p1)) := by
    intro hmem
    rcases List.mem_append.mp hmem with h | h
    · exact absurd h (by decide)
    · rcases List.mem_append.mp h with h | h
      · have := decFuel_digits _ _ 10 h
        omega
      · rcases List.mem_cons.mp h with h | h
        · exact absurd h (by decide)
        · rcases List.mem_append.mp h with h | h
          · have := decFuel_digits _ _ 10 h
            omega
          · rcases List.mem_cons.mp h with h | h
            · exact absurd h (by decide)
            · exact hp1 h
  unfold readLines
  rw [hs, readLinesAux_append_lf [] _ _ hnot, List.nil_append]

/-- C22: a line-feed inside a payload loses the message.  For every valid frame (payload
of at most 240 bytes, rssi and snr in -128..127) whose payload contains the byte 0x0A,
when the stream `+RCV=` + frame + `\r\n` is cut into lines at every line-feed, as
`ReadString('\n')` cuts it, and each line is passed to `classifyOutput` while idle, every
Received Message the sink then holds was there before or has a `Length` other than the
payload length of the frame; so none has the `Length` and payload bytes of the frame. -/
theorem C22_linefeed_loses_message (address : Nat) (payload : Str) (rssi snr : Int)
    (hn : payload.length ≤ 240) (hr : -128 ≤ rssi ∧ rssi ≤ 127) (hs : -128 ≤ snr ∧ snr ≤ 127)
    (hlf : 10 ∈ payload) (L : Lora) (m : RecievedData)
    (hm : m ∈ (classifyLines
      (readLines (str "+RCV=" ++ encodeFrame address payload rssi snr ++ str "\r\n")) L).RecievedData) :
    m ∈ L.RecievedData ∨
      (m.Length ≠ payload.length ∧
        ¬ (m.Length = payload.length ∧ sliceTo m.Data m.Length = some payload)) := by
  obtain ⟨i, hi⟩ := indexByte_of_mem 10 payload hlf
  have hsplit : ∃ p1 p2, payload = p1 ++ 10 :: p2 ∧ 10 ∉ p1 :=
    ⟨_, _, (indexByte_some 10 payload i hi).2, (indexByte_some 10 payload i hi).1⟩
  obtain ⟨p1, p2, rfl, hp1⟩ := hsplit
  have hlen : (p1 ++ 10 :: p2).length = p1.length + 1 + p2.length := by
    simp only [List.length_append, List.length_cons]
    omega
  have key : m ∈ L.RecievedData ∨ m.Length ≠ (p1 ++ 10 :: p2).length := by
    refine classifyLines_received _ (fun m => m.Length ≠ (p1 ++ 10 :: p2).length) ?_ L m hm
    intro line hline L1 m1 hm1
    rw [readLines_frame address p1 p2 rssi snr hp1] at hline
    rcases List.mem_cons.mp hline with hfirst | hlater
    · rw [hfirst, classifyOutput_cut_frame address _ p1 L1 (by omega) (by omega)] at hm1
      exact Or.inl hm1
    · have hl := readLinesAux_length [] _ line hlater
      have hr4 := decInt_length_le rssi hr.1 hr.2
      have hs4 := decInt_length_le snr hs.1 hs.2
      simp only [List.length_nil, List.length_append, List.length_cons] at hl
      rcases classifyOutput_received_cases line L1 with hsame | ⟨T, hT, hok, hoff⟩
      · rw [hsame] at hm1
        exact Or.inl hm1
      · rw [hoff] at hm1
        rcases mem_offer _ _ _ _ hm1 with hin | heq
        · exact Or.inl hin
        · right
          intro hLen
          have h8 := parseReceivedMessage_ok_length T hok
          have htl := trimLine_length_le line
          have h5 : (trimLine line).length = 5 + T.length := by
            rw [hT, List.length_append]
            rfl
          rw [heq] at hLen
          omega
  rcases key with h | h
  · exact Or.inl h
  · exact Or.inr ⟨h, fun hc => h hc.1⟩

/-- C22 on the frame with address 50, rssi -99, snr 40 and the payload `a`, line-feed,
`+RCV=1,1,x,0,0`, line-feed, `b` (18 bytes): the stream is cut into three lines, the
middle one yields a message of `Length` 1, and no message of `Length` 18 reaches the
empty sink. -/
theorem C22_linefeed_loses_message_witness :
    readLines (str "+RCV=" ++ encodeFrame 50 (str "a\n+RCV=1,1,x,0,0\nb") (-99) 40 ++ str "\r\n") =
      [str "+RCV=50,18,a\n", str "+RCV=1,1,x,0,0\n", str "b,-99,40\r\n"] ∧
    (classifyLines
        (readLines (str "+RCV=" ++ encodeFrame 50 (str "a\n+RCV=1,1,x,0,0\nb") (-99) 40 ++ str "\r\n"))
        (Engine.init 10).lora).RecievedData.map (fun m => (m.Address, m.Length)) = [(1, 1)] ∧
    ∀ m, m ∈ (classifyLines
        (readLines (str "+RCV=" ++ encodeFrame 50 (str "a\n+RCV=1,1,x,0,0\nb") (-99) 40 ++ str "\r\n"))
        (Engine.init 10).lora).RecievedData →
      m ∈ (Engine.init 10).lora.RecievedData ∨
        (m.Length ≠ (str "a\n+RCV=1,1,x,0,0\nb").length ∧
          ¬ (m.Length = (str "a\n+RCV=1,1,x,0,0\nb").length ∧
            sliceTo m.Data m.Length = some (str "a\n+RCV=1,1,x,0,0\nb"))) :=
  ⟨by decide, by decide, fun m hm =>
    C22_linefeed_loses_message 50 (str "a\n+RCV=1,1,x,0,0\nb") (-99) 40 (by decide) (by decide)
      (by decide) (by decide) (Engine.init 10).lora m hm⟩

end Krylr896
